import Mathlib

set_option maxHeartbeats 1000000

/-!
Verification of the French-Wiktionary extraction modules
(`src/wiktextract/extractor/fr/linkage.py`, `src/wiktextract/extractor/fr/form_line.py`,
and the older dict-based `wiktextract/extractor/fr/form_line.py`).

The embedding translates the Python source into total Lean functions.  Python
operations that can raise (negative-index access on an empty list, `getattr`
with a `None` attribute name, `largs[0][0]` on malformed link arguments) are
modelled in an `Except` error monad.  External collaborators that are not part
of the repository sources (the `wikitextprocessor` parse tree and its traversal
helpers, `clean_node`, `split_tag_text`, the pronunciation module, the
conjugation extractor and the section-name configuration table) are modelled as
an explicit environment record; the parse-tree traversals are reproduced from
the documented behaviour of `wikitextprocessor`.

Because `page_data[-1].forms = page_data[-2].forms` in `process_conj_template`
makes two entries share one Python list object, the `forms` field of an entry
is modelled as a reference (`formsRef`) into a store of form lists, so that the
aliasing and its observable consequences are represented faithfully.  All other
list fields are only ever created fresh per entry by the repository code and
are kept inline.
-/

namespace Wx

/-- Python whitespace characters as used by `str.strip()` and the regex
class `\s` (ASCII fragment). -/
def isPyWS (c : Char) : Bool :=
  c = ' ' || c = '\t' || c = '\n' || c = '\r' || c = '\x0b' || c = '\x0c'

/-- Python `str.strip()` with no argument: drop leading and trailing whitespace. -/
def pyStripWS (s : String) : String :=
  ⟨((s.data.dropWhile isPyWS).reverse.dropWhile isPyWS).reverse⟩

/-- Python `str.strip(chars)`: drop leading and trailing characters that occur
in `cs`. -/
def pyStripChars (cs : String) (s : String) : String :=
  let f := fun c => cs.data.contains c
  ⟨((s.data.dropWhile f).reverse.dropWhile f).reverse⟩

/-- Python `str.startswith` (list-based so that it reduces in the kernel). -/
def pyStartsWith (s lead : String) : Bool :=
  lead.data.isPrefixOf s.data

/-- Python `str.endswith` (list-based so that it reduces in the kernel). -/
def pyEndsWith (s suf : String) : Bool :=
  suf.data.reverse.isPrefixOf s.data.reverse

/-- Python `str.lower` (ASCII fragment). -/
def pyToLower (s : String) : String :=
  ⟨s.data.map Char.toLower⟩

/-- Python `str.removesuffix`. -/
def pyRemoveSuffix (s suf : String) : String :=
  if suf ≠ "" ∧ pyEndsWith s suf then ⟨s.data.take (s.data.length - suf.data.length)⟩ else s

/-- Python `str.removeprefix`. -/
def pyRemoveLeading (s lead : String) : String :=
  if lead ≠ "" ∧ pyStartsWith s lead then ⟨s.data.drop lead.data.length⟩ else s

/-- Python `str.isdigit` (ASCII fragment): non-empty and all digits. -/
def pyIsDigit (s : String) : Bool :=
  s ≠ "" && s.data.all Char.isDigit

/-- Numeric value of a digit string, as Python `int(s)` for a digit string. -/
def pyToNat (s : String) : Nat :=
  s.data.foldl (fun a c => a * 10 + (c.toNat - 48)) 0

/-- Everything after the first slash of a character list, if any. -/
def pySplitFirstSlash : List Char → Option (List Char)
  | [] => none
  | '/' :: rest => some rest
  | _ :: rest => pySplitFirstSlash rest

/-- Python `s.split("/", 1)[-1]`: everything after the first slash, or the
whole string when there is none. -/
def pySplit1Last (s : String) : String :=
  match pySplitFirstSlash s.data with
  | none => s
  | some cs => ⟨cs⟩

/-! ## The wikitextprocessor parse tree (external collaborator) -/

/-- Node kinds of the external parse tree that the extractor inspects. -/
inductive NodeKind where
  | TEMPLATE
  | LIST_ITEM
  | LIST
  | LINK
  | ITALIC
  | HTML
  | ROOT
  | OTHER
deriving DecidableEq

/-- A template-parameter key: positional (int) or named (str), as in the
`template_parameters` dict of `wikitextprocessor`. -/
inductive PKey where
  | num : Nat → PKey
  | str : String → PKey
deriving DecidableEq

mutual
/-- A `wikitextprocessor` `WikiNode`: kind, template/tag name, template
parameters, list-item marker (`sarg`), children and link arguments (`largs`). -/
inductive WikiNode where
  | mk (kind : NodeKind) (name : String) (params : List (PKey × Child))
       (sarg : String) (children : List Child) (largs : List (List Child)) : WikiNode

/-- A child of a `WikiNode`: either a raw string or another node. -/
inductive Child where
  | str : String → Child
  | node : WikiNode → Child
end

def WikiNode.kind : WikiNode → NodeKind
  | .mk k _ _ _ _ _ => k

def WikiNode.name : WikiNode → String
  | .mk _ n _ _ _ _ => n

def WikiNode.params : WikiNode → List (PKey × Child)
  | .mk _ _ p _ _ _ => p

def WikiNode.sarg : WikiNode → String
  | .mk _ _ _ s _ _ => s

def WikiNode.children : WikiNode → List Child
  | .mk _ _ _ _ c _ => c

def WikiNode.largs : WikiNode → List (List Child)
  | .mk _ _ _ _ _ l => l

/-- Python `template_parameters.get(k)`: first binding of the key, if any. -/
def pget (ps : List (PKey × Child)) (k : PKey) : Option Child :=
  (ps.find? (fun p => decide (p.1 = k))).map (·.2)

mutual
/-- `WikiNode.find_child_recursively` of `wikitextprocessor`: yield every node
of one of the given kinds anywhere below this node, in document order, a
matching node being yielded before its own matching descendants. -/
def findChildRec (ks : List NodeKind) : WikiNode → List WikiNode
  | .mk _ _ _ _ cs _ => findChildRecL ks cs

def findChildRecL (ks : List NodeKind) : List Child → List WikiNode
  | [] => []
  | .str _ :: rest => findChildRecL ks rest
  | .node n :: rest =>
      (if n.kind ∈ ks then [n] else []) ++ findChildRec ks n ++ findChildRecL ks rest
end

/-- `WikiNode.find_child`: direct child nodes of one of the given kinds. -/
def findChild (ks : List NodeKind) (n : WikiNode) : List WikiNode :=
  n.children.filterMap (fun c =>
    match c with
    | .node m => if m.kind ∈ ks then some m else none
    | .str _ => none)

/-- `WikiNode.invert_find_child` with default `include_empty_str=False`:
direct children that are either non-blank strings or nodes not of the given
kinds. -/
def invertFindChild (ks : List NodeKind) (n : WikiNode) : List Child :=
  n.children.filter (fun c =>
    match c with
    | .str s => decide (pyStripWS s ≠ "")
    | .node m => decide (m.kind ∉ ks))

/-- `WikiNode.find_html tag with_index=True`: direct HTML children with the
given tag, the index counting the matching tags in order. -/
def findHtmlSpans (tag : String) (n : WikiNode) : List WikiNode :=
  n.children.filterMap (fun c =>
    match c with
    | .node m => if m.kind = NodeKind.HTML ∧ m.name = tag then some m else none
    | .str _ => none)

/-! ## Data model (`extractor/fr/models.py`, not under `src/`)

Modelled from the spec: the data model section describes entries as records
with `forms` (form text, tags), `sounds` (ipa / zh-pron, tags), linkage lists
(`derived` / `related` / `synonyms`, each with word, sense, tags, translation),
plus the fields the extractor code reads and writes (`lang_code`, `lang`,
`pos`, `source`, `sense_index`, `roman`, `alt`).  The pydantic
`model_fields_set` membership test for `word` is modelled by making `word` an
`Option`: it is `some` exactly when the field was assigned. -/

structure Form where
  form : String := ""
  tags : List String := []
  source : String := ""
deriving DecidableEq

structure Sound where
  ipa : String := ""
  zh_pron : String := ""
  tags : List String := []
deriving DecidableEq

structure Linkage where
  word : Option String := none
  lang_code : String := ""
  lang : String := ""
  sense : String := ""
  sense_index : Nat := 0
  tags : List String := []
  translation : String := ""
  roman : String := ""
  alt : String := ""
deriving DecidableEq

/-- The linkage lists of a `WordEntry` that `LINKAGE_SUBTITLES` can select. -/
inductive LinkageField where
  | derived
  | related
  | synonyms
deriving DecidableEq

/-- A word entry.  `formsRef` is the reference of the entry's forms list in
the store (see `PState`); all other list fields are created fresh per entry by
the repository code and are kept inline. -/
structure WordEntry where
  lang_code : String := ""
  lang : String := ""
  pos : String := ""
  formsRef : Nat := 0
  sounds : List Sound := []
  tags : List String := []
  derived : List Linkage := []
  related : List Linkage := []
  synonyms : List Linkage := []
deriving DecidableEq

def WordEntry.lfield (e : WordEntry) : LinkageField → List Linkage
  | .derived => e.derived
  | .related => e.related
  | .synonyms => e.synonyms

def WordEntry.setLfield (e : WordEntry) : LinkageField → List Linkage → WordEntry
  | .derived, l => { e with derived := l }
  | .related, l => { e with related := l }
  | .synonyms, l => { e with synonyms := l }

/-- The extraction state: the shared `page_data` list of entries, and the
store of forms lists (Python list objects), addressed by `formsRef`. -/
structure PState where
  entries : List WordEntry
  store : Nat → List Form

/-- Python exceptions the embedded code can raise. -/
inductive PyErr where
  | indexError
  | typeError
  | attributeError
deriving DecidableEq

/-- Python `page_data[-1]`: raises `IndexError` on an empty list. -/
def getLastE (st : PState) : Except PyErr WordEntry :=
  match st.entries.getLast? with
  | some e => .ok e
  | none => .error .indexError

/-- The last entry of the state (junk default when the list is empty). -/
def lastD (st : PState) : WordEntry :=
  st.entries.getLastD {}

/-- The second-to-last entry (`page_data[-2]`), as the last entry of
`dropLast` (junk default when it does not exist). -/
def secondD (st : PState) : WordEntry :=
  st.entries.dropLast.getLastD {}

/-- Replace the last entry (mutation of the object `page_data[-1]`). -/
def PState.setLast (st : PState) (e : WordEntry) : PState :=
  { st with entries := st.entries.dropLast ++ [e] }

/-- Overwrite one forms-list cell of the store. -/
def PState.setForms (st : PState) (r : Nat) (fs : List Form) : PState :=
  { st with store := fun r' => if r' = r then fs else st.store r' }

/-- The forms list of an entry (`entry.forms` in Python). -/
def formsOf (st : PState) (e : WordEntry) : List Form :=
  st.store e.formsRef

/-- Append one form to the forms list object of the given entry
(`entry.forms.append(f)`). -/
def appendFormToLast (st : PState) (e : WordEntry) (f : Form) : PState :=
  st.setForms e.formsRef (st.store e.formsRef ++ [f])

/-! ## The environment of external collaborators -/

/-- The shapes of third argument that the repository passes to `clean_node`. -/
inductive CleanArg where
  | null
  | ofStr : String → CleanArg
  | ofNode : WikiNode → CleanArg
  | ofChildren : List Child → CleanArg

/-- External collaborators of the two extraction modules, none of which is
under `src/`: the text cleaner, the template expander (`wxr.wtp.parse` over
`node_to_wikitext`, with and without `pre_expand`), `split_tag_text` from
`share.py`, the pronunciation module's `PRON_TEMPLATES` and
`process_pron_template`, the `LINKAGE_SUBTITLES` configuration table, and
`extract_conjugation` (modelled from the spec as a transformation of the
entry's forms list for a conjugation page title). -/
structure Env where
  cleanFn : CleanArg → String
  expand : WikiNode → WikiNode
  expandPre : WikiNode → WikiNode
  splitTagText : String → List String
  pronTemplates : List String
  processPronTemplate : WikiNode → String
  linkageSubtitles : String → Option LinkageField
  extractConjugation : String → List Form → List Form

/-- Modelled from the spec: `clean_node` (in `wiktextract/page.py`, not under
`src/`) normalizes wikitext into a plain string; per the error-handling
section it is total, and a missing (`None`) or empty argument yields the
empty string.  Otherwise its value is an arbitrary environment function. -/
def cleanNode (env : Env) : CleanArg → String
  | .null => ""
  | .ofStr "" => ""
  | .ofStr s => env.cleanFn (.ofStr s)
  | .ofNode n => env.cleanFn (.ofNode n)
  | .ofChildren cs => env.cleanFn (.ofChildren cs)

def childArg : Child → CleanArg
  | .str s => .ofStr s
  | .node n => .ofNode n

/-- `clean_node` applied to `template_parameters.get(k)` (default `None`). -/
def optArg : Option Child → CleanArg
  | none => .null
  | some c => childArg c

/-- `clean_node` applied to `template_parameters.get(k, "")` (default `""`). -/
def optArgD : Option Child → CleanArg
  | none => .ofStr ""
  | some c => childArg c

/-! ## `linkage.py` -/

/-- `process_lien_template` (`linkage.py` lines 151-170). -/
def processLienTemplate (env : Env) (n : WikiNode) (ld : Linkage) : Linkage :=
  let word := cleanNode env (optArg
    (match pget n.params (.str "dif") with
     | some v => some v
     | none => pget n.params (.num 1)))
  let ld := { ld with word := some word }
  let ld :=
    match pget n.params (.str "tr") with
    | some v => { ld with roman := cleanNode env (childArg v) }
    | none => ld
  match pget n.params (.str "sens") with
  | some v => { ld with translation := cleanNode env (childArg v) }
  | none => ld

/-- `process_zh_lien_template` (`linkage.py` lines 173-187). -/
def processZhLienTemplate (env : Env) (n : WikiNode) (ld : Linkage) : Linkage :=
  let ld := { ld with word := some (cleanNode env (optArg (pget n.params (.num 1)))) }
  let ld := { ld with roman := cleanNode env (optArg (pget n.params (.num 2))) }
  let trad := cleanNode env (optArgD (pget n.params (.num 3)))
  if trad ≠ "" then { ld with alt := trad } else ld

/-- `process_linkage_template` (`linkage.py` lines 140-148). -/
def processLinkageTemplate (env : Env) (n : WikiNode) (ld : Linkage) : Linkage :=
  if n.name = "lien" then processLienTemplate env n ld
  else if pyStartsWith n.name "zh-lien" then processZhLienTemplate env n ld
  else ld

/-- The `for tag in split_tag_text(tag_text)` loop of `process_linkage_list`
(lines 129-133): a `— `-led piece becomes the translation, any other
non-empty piece a tag. -/
def applyTags (env : Env) (tagText : String) (ld : Linkage) : Linkage :=
  (env.splitTagText tagText).foldl
    (fun ld tag =>
      if pyStartsWith tag "— " then { ld with translation := pyRemoveLeading tag "— " }
      else if tag ≠ "" then { ld with tags := ld.tags ++ [tag] }
      else ld)
    ld

/-- `pre_data = getattr(page_data[-1], linkage_type); pre_data.append(...)`:
raises `IndexError` on an empty `page_data`, and `TypeError` when
`linkage_type` is `None` (an unknown section type). -/
def appendLinkage (st : PState) (lt : Option LinkageField) (ld : Linkage) :
    Except PyErr PState := do
  let last ← getLastE st
  match lt with
  | none => .error .typeError
  | some f => .ok (st.setLast (last.setLfield f (last.lfield f ++ [ld])))

/-- The wikitext fragment seen by the tag branch of the item loop:
the raw string for a string child, the cleaned text for a node child. -/
def fragText (env : Env) : Child → String
  | .str s => s
  | .node n => cleanNode env (.ofNode n)

/-- The computation of `tag_text` (`process_linkage_list` lines 104-108): a
string child is used raw, a node child is cleaned with `page_data[-1]` as
sense data (which reads the last entry and so raises on an empty list). -/
def fragTextE (env : Env) (st : PState) : Child → Except PyErr String
  | .str s => .ok s
  | .node n => (getLastE st).map (fun _ => cleanNode env (.ofNode n))

/-- The `for index, child_node in enumerate(...)` loop over the non-list
children of one list item (`process_linkage_list` lines 94-133), threading
the state, the linkage record under construction and the pending
parenthesized-tag buffer. -/
def itemLoop (env : Env) (lt : Option LinkageField) :
    List Child → PState → Linkage → String → Nat →
    Except PyErr (PState × Linkage × String)
  | [], st, ld, pending, _ => .ok (st, ld, pending)
  | c :: rest, st, ld, pending, idx =>
    if idx = 0 ∨ ld.word.isNone then
      let ld' :=
        match c with
        | .node n =>
          if n.kind = NodeKind.TEMPLATE then processLinkageTemplate env n ld
          else { ld with word := some (cleanNode env (childArg c)) }
        | .str _ => { ld with word := some (cleanNode env (childArg c)) }
      itemLoop env lt rest st ld' pending (idx + 1)
    else
      fragTextE env st c >>= fun tagText =>
      let t := pyStripWS tagText
      if pyStartsWith t "(" ∧ ¬ pyEndsWith t ")" then
        itemLoop env lt rest st ld tagText (idx + 1)
      else if ¬ pyStartsWith t "(" ∧ pyEndsWith t ")" then
        itemLoop env lt rest st (applyTags env (pending ++ tagText) ld) "" (idx + 1)
      else if t = "," ∨ t = "/" then do
        let st' ← appendLinkage st lt ld
        itemLoop env lt rest st' {} pending (idx + 1)
      else if pending ≠ "" then
        itemLoop env lt rest st ld (pending ++ tagText) (idx + 1)
      else
        itemLoop env lt rest st (applyTags env tagText ld) pending (idx + 1)

/-- The Python regex `\s*\((?:sens\s*)?(\d+)\)$` of `process_linkage_list`:
on a match, the text with the matched span removed, and the number. -/
def senseIndexMatch (s : String) : Option (String × Nat) :=
  match s.data.reverse with
  | ')' :: r1 =>
    let ds := r1.takeWhile Char.isDigit
    if ds.isEmpty then none
    else
      let r2 := r1.drop ds.length
      let afterOpen : Option (List Char) :=
        match r2 with
        | '(' :: r3 => some r3
        | _ =>
          match r2.dropWhile isPyWS with
          | 's' :: 'n' :: 'e' :: 's' :: '(' :: r3 => some r3
          | _ => none
      match afterOpen with
      | none => none
      | some r3 => some (⟨(r3.dropWhile isPyWS).reverse⟩, pyToNat ⟨ds.reverse⟩)
  | _ => none

/-- The fresh `Linkage()` of line 89 with the current sense applied
(lines 90-93). -/
def initLd (sense : String) (sidx : Nat) : Linkage :=
  let ld : Linkage := {}
  let ld := if sense ≠ "" then { ld with sense := sense } else ld
  if sidx ≠ 0 then { ld with sense_index := sidx } else ld

/-- One iteration of the outer loop of `process_linkage_list` (lines 59-137)
on a found template or list item, returning the new state and the new sense
text / sense index. -/
def linkStep (env : Env) (lt : Option LinkageField) (n : WikiNode)
    (st : PState) (sense : String) (sidx : Nat) :
    Except PyErr (PState × String × Nat) :=
  if n.kind = NodeKind.TEMPLATE ∧ n.name = "(" then
    let sense' := cleanNode env (optArgD (pget n.params (.num 1)))
    let sit := (pget n.params (.num 2)).getD (.str "0")
    let sidx' :=
      match sit with
      | .str s => if pyIsDigit s then pyToNat s else sidx
      | .node _ => sidx
    .ok (st, sense', sidx')
  else if n.kind = NodeKind.LIST_ITEM ∧ n.sarg = ";" then
    let s0 := cleanNode env (.ofChildren n.children)
    match senseIndexMatch s0 with
    | some (t, k) => .ok (st, t, k)
    | none => .ok (st, s0, sidx)
  else do
    let (st', ld', _) ←
      itemLoop env lt (invertFindChild [NodeKind.LIST] n) st (initLd sense sidx) "" 0
    if ld'.word.isSome then do
      let st'' ← appendLinkage st' lt ld'
      Except.ok (st'', sense, sidx)
    else
      Except.ok (st', sense, sidx)

/-- The outer loop of `process_linkage_list` over all found nodes. -/
def linkSteps (env : Env) (lt : Option LinkageField) :
    List WikiNode → PState → String → Nat → Except PyErr PState
  | [], st, _, _ => .ok st
  | n :: rest, st, sense, sidx => do
      let (st', s', i') ← linkStep env lt n st sense sidx
      linkSteps env lt rest st' s' i'

/-- `process_linkage_list` (`linkage.py` lines 51-137). -/
def processLinkageList (env : Env) (lt : Option LinkageField)
    (levelNode : WikiNode) (st : PState) : Except PyErr PState :=
  linkSteps env lt (findChildRec [NodeKind.LIST_ITEM, NodeKind.TEMPLATE] levelNode) st "" 0

/-- Modelled from the spec (`models.py` is not under `src/`): the raw
template parameter assigned to the string-typed `lang_code` field of a
`Linkage`; a missing or non-string parameter yields an empty field
(best-effort extraction, no fatal path). -/
def rawStr : Option Child → String
  | some (.str s) => s
  | _ => ""

/-- The inner loop of `process_derives_autres_list` (lines 38-48) over the
template and link children of one list item. -/
def derivesInner (env : Env) :
    List WikiNode → String → String → PState → Except PyErr PState
  | [], _, _, st => .ok st
  | n :: rest, lc, ln, st =>
    if n.kind = NodeKind.TEMPLATE ∧ n.name = "L" then
      derivesInner env rest (rawStr (pget n.params (.num 1)))
        (cleanNode env (.ofNode n)) st
    else if n.kind = NodeKind.LINK ∨ (n.kind = NodeKind.TEMPLATE ∧ n.name = "lien") then do
      let w := cleanNode env (.ofNode n)
      let last ← getLastE st
      derivesInner env rest lc ln
        (st.setLast { last with
          derived := last.derived ++ [{ lang_code := lc, lang := ln, word := some w }] })
    else
      derivesInner env rest lc ln st

/-- The outer loop of `process_derives_autres_list` (lines 29-48). -/
def derivesItems (env : Env) : List WikiNode → PState → Except PyErr PState
  | [], st => .ok st
  | item :: rest, st => do
      let st' ← derivesInner env (findChild [NodeKind.TEMPLATE, NodeKind.LINK] item) "" "" st
      derivesItems env rest st'

/-- `process_derives_autres_list` (`linkage.py` lines 29-48). -/
def processDerivesAutresList (env : Env) (levelNode : WikiNode) (st : PState) :
    Except PyErr PState :=
  derivesItems env (findChildRec [NodeKind.LIST_ITEM] levelNode) st

/-- `extract_linkage` (`linkage.py` lines 12-26). -/
def extractLinkage (env : Env) (st : PState) (levelNode : WikiNode)
    (sectionType : String) : Except PyErr PState :=
  if sectionType = "dérivés autres langues" then
    processDerivesAutresList env levelNode st
  else
    processLinkageList env (env.linkageSubtitles sectionType) levelNode st

/-! ## `form_line.py` (new, under `src/src/`) -/

/-- A single apostrophe, kept out of string literals. -/
def apos : String := ⟨[Char.ofNat 39]⟩

/-- The `source` string of forms produced by `process_equiv_pour_template`. -/
def equivPourSource : String := "form line template " ++ apos ++ "équiv-pour" ++ apos

/-- The loop of `process_equiv_pour_template` (`form_line.py` lines 71-82)
over the italic and HTML children of the expanded template. -/
def equivChildren (env : Env) : List WikiNode → String → PState → Except PyErr PState
  | [], _, st => .ok st
  | c :: rest, formTag, st =>
    if c.kind = NodeKind.ITALIC then
      equivChildren env rest (pyStripChars "() " (cleanNode env (.ofNode c))) st
    else if c.kind = NodeKind.HTML ∧ c.name = "bdi" then
      let fd : Form :=
        { form := cleanNode env (.ofNode c)
          source := equivPourSource
          tags := if formTag ≠ "" then [formTag] else [] }
      if fd.form ≠ "" then do
        let last ← getLastE st
        equivChildren env rest formTag (appendFormToLast st last fd)
      else
        equivChildren env rest formTag st
    else
      equivChildren env rest formTag st

/-- `process_equiv_pour_template` (`form_line.py` lines 63-82). -/
def processEquivPourTemplate (env : Env) (tn : WikiNode) (st : PState) :
    Except PyErr PState :=
  equivChildren env (findChild [NodeKind.ITALIC, NodeKind.HTML] (env.expand tn)) "" st

/-- The loop of `process_zh_mot_template` (`form_line.py` lines 97-108) over
the template children of the pre-expanded node. -/
def zhMotTemplates (env : Env) : List WikiNode → PState → Except PyErr PState
  | [], st => .ok st
  | t :: rest, st =>
    if pyToLower t.name = "lang" then do
      let last ← getLastE st
      zhMotTemplates env rest (st.setLast { last with
        sounds := last.sounds ++ [{ zh_pron := cleanNode env (.ofNode t), tags := ["Pinyin"] }] })
    else if t.name = "pron" ∨ t.name = "prononciation" then do
      let last ← getLastE st
      zhMotTemplates env rest (st.setLast { last with
        sounds := last.sounds ++ [{ ipa := cleanNode env (.ofNode t) }] })
    else
      zhMotTemplates env rest st

/-- `process_zh_mot_template` (`form_line.py` lines 85-108). -/
def processZhMotTemplate (env : Env) (tn : WikiNode) (st : PState) :
    Except PyErr PState :=
  zhMotTemplates env (findChild [NodeKind.TEMPLATE] (env.expandPre tn)) st

/-- `process_ja_mot_template` (`form_line.py` lines 111-133): the second
`span` of the expanded template is the Hepburn romanization; it is appended
as a form unless its text is already the text of an existing form. -/
def processJaMotTemplate (env : Env) (tn : WikiNode) (st : PState) :
    Except PyErr PState := do
  let expanded := env.expand tn
  let last ← getLastE st
  let existing := (formsOf st last).map (·.form)
  match (findHtmlSpans "span" expanded).get? 1 with
  | none => .ok st
  | some sp =>
    let t := cleanNode env (.ofNode sp)
    if t ∈ existing then .ok st
    else .ok (appendFormToLast st last { form := t, tags := ["romanization"] })

def groupeNames : List String :=
  ["Premier groupe", "Deuxième groupe", "Troisième groupe"]

/-- `conj_title = link.largs[0][0]` followed by `conj_title.startswith`:
`none` when `largs` is empty (the loop continues); `IndexError` when the
first link argument is an empty list; `AttributeError` when its first element
is a node (no `startswith` attribute). -/
def conjLinkTitle : List (List Child) → Except PyErr (Option String)
  | [] => .ok none
  | [] :: _ => .error .indexError
  | (Child.str s :: _) :: _ => .ok (some s)
  | (Child.node _ :: _) :: _ => .error .attributeError

/-- The reuse condition of `process_conj_template` (`form_line.py` lines
158-164): at least two entries, same language code and part of speech as the
previous entry, and the previous entry's forms list is non-empty with its
last form extracted from the same conjugation page. -/
def conjReuse (st : PState) (last : WordEntry) (conjTitle : String) : Bool :=
  if 1 < st.entries.length then
    let e2 := secondD st
    e2.lang_code = last.lang_code ∧ e2.pos = last.pos ∧
      formsOf st e2 ≠ [] ∧ ((formsOf st e2).getLastD {}).source = conjTitle
  else false

/-- The link loop of `process_conj_template` (`form_line.py` lines 145-167):
for a conjugation-page link, either reuse the previous entry's forms list
object (same language, same part of speech, non-empty forms whose last form
came from the same conjugation page) or run the external conjugation
extractor on the current entry's forms list. -/
def conjLinks (env : Env) : List WikiNode → PState → Except PyErr PState
  | [], st => .ok st
  | l :: rest, st => do
    let t? ← conjLinkTitle l.largs
    match t? with
    | none => conjLinks env rest st
    | some conjTitle =>
      if ¬ pyStartsWith conjTitle "Conjugaison:" then conjLinks env rest st
      else if pySplit1Last conjTitle ∈ groupeNames then conjLinks env rest st
      else do
        let last ← getLastE st
        if conjReuse st last conjTitle then
          conjLinks env rest (st.setLast { last with formsRef := (secondD st).formsRef })
        else
          conjLinks env rest
            (st.setForms last.formsRef (env.extractConjugation conjTitle (formsOf st last)))

/-- The tag `process_conj_template` computes from the expanded template
(`form_line.py` lines 169-175): the cleaned expansion with the boilerplate
suffixes removed. -/
def conjTagOf (env : Env) (tn : WikiNode) : String :=
  let tag0 := cleanNode env (.ofNode (env.expand tn))
  if tn.name = "conj" ∨ tn.name = "conjugaison" then
    pyStripWS (pyRemoveSuffix tag0 "(voir la conjugaison)")
  else if pyStartsWith tn.name "ja-" then
    pyStripWS (pyRemoveSuffix (pyRemoveSuffix tag0 "(conjugaison)") "(flexions)")
  else tag0

/-- `process_conj_template` (`form_line.py` lines 136-177). -/
def processConjTemplate (env : Env) (tn : WikiNode) (st : PState) :
    Except PyErr PState :=
  conjLinks env (findChild [NodeKind.LINK] (env.expand tn)) st >>= fun st1 =>
  getLastE st1 >>= fun last =>
  if conjTagOf env tn ≠ "" then
    .ok (st1.setLast { last with tags := last.tags ++ [conjTagOf env tn] })
  else .ok st1

/-- Whether a template name is dispatched to the conjugation handler
(`form_line.py` lines 38-41). -/
def isConjName (s : String) : Bool :=
  s = "conj" || s = "conjugaison" || pyStartsWith s "ja-adj-" || pyStartsWith s "ja-verbe"

/-- `sounds[-1].tags.append(tag.strip("()"))` (`form_line.py` line 52). -/
def tagLastSound (ss : List Sound) (tag : String) : List Sound :=
  let s := ss.getLastD {}
  ss.dropLast ++ [{ s with tags := s.tags ++ [pyStripChars "()" tag] }]

/-- The template branch of the `extract_form_line` loop (`form_line.py`
lines 27-54): dispatch on the template name, the fallback treating the
template's cleaned text as a tag (of the previous pronunciation's sound when
it is parenthesized and follows a pronunciation template). -/
def formLineTemplate (env : Env) (pre : String) (n : WikiNode) (st : PState) :
    Except PyErr PState :=
  if n.name ∈ env.pronTemplates then
    if env.processPronTemplate n ≠ "" then
      getLastE st >>= fun last =>
      Except.ok (st.setLast { last with
        sounds := last.sounds ++ [{ ipa := env.processPronTemplate n }] })
    else Except.ok st
  else if n.name = "équiv-pour" then processEquivPourTemplate env n st
  else if pyStartsWith n.name "zh-mot" then processZhMotTemplate env n st
  else if n.name = "ja-mot" then processJaMotTemplate env n st
  else if isConjName n.name then processConjTemplate env n st
  else
    getLastE st >>= fun last =>
    if pyStartsWith (cleanNode env (.ofNode n)) "(" ∧
        pyEndsWith (cleanNode env (.ofNode n)) ")" ∧ pre ∈ env.pronTemplates ∧
        last.sounds ≠ [] then
      Except.ok (st.setLast { last with
        sounds := tagLastSound last.sounds (cleanNode env (.ofNode n)) })
    else if pyStripChars "()" (cleanNode env (.ofNode n)) ≠ "" then
      Except.ok (st.setLast { last with
        tags := last.tags ++ [pyStripChars "()" (cleanNode env (.ofNode n))] })
    else Except.ok st

/-- One iteration of the `extract_form_line` loop (`form_line.py` lines
26-60) on one node of the form line, threading `pre_template_name`. -/
def formLineStep (env : Env) (st : PState) (pre : String) (c : Child) :
    Except PyErr (PState × String) :=
  match c with
  | .str _ => .ok (st, pre)
  | .node n =>
    if n.kind = NodeKind.TEMPLATE then
      formLineTemplate env pre n st >>= fun st' => Except.ok (st', n.name)
    else if n.kind = NodeKind.ITALIC then
      if cleanNode env (.ofNode n) ≠ "ou" then
        getLastE st >>= fun last =>
        Except.ok (st.setLast { last with
          tags := last.tags ++ [cleanNode env (.ofNode n)] }, pre)
      else Except.ok (st, pre)
    else Except.ok (st, pre)

/-- The node loop of `extract_form_line`. -/
def formLineGo (env : Env) : List Child → PState → String → Except PyErr PState
  | [], st, _ => .ok st
  | c :: rest, st, pre => do
      let (st', pre') ← formLineStep env st pre c
      formLineGo env rest st' pre'

/-- `extract_form_line` (`form_line.py` lines 13-60). -/
def extractFormLine (env : Env) (st : PState) (nodes : List Child) :
    Except PyErr PState :=
  formLineGo env nodes st ""

/-! ## Pure collector form of `process_linkage_list`

The imperative loops above append records to `page_data[-1]` one at a time.
The following pure functions compute the same records without threading the
state; the refinement lemmas below prove that the imperative loops are
equivalent to appending the collected records, which yields the append-only
and order-preservation properties. -/

/-- Pure form of `itemLoop`: the records flushed at separators, the final
record under construction, and the final pending buffer. -/
def collectItemGo (env : Env) : List Child → Linkage → String → Nat →
    List Linkage × Linkage × String
  | [], ld, pending, _ => ([], ld, pending)
  | c :: rest, ld, pending, idx =>
    if idx = 0 ∨ ld.word.isNone then
      let ld' :=
        match c with
        | .node n =>
          if n.kind = NodeKind.TEMPLATE then processLinkageTemplate env n ld
          else { ld with word := some (cleanNode env (childArg c)) }
        | .str _ => { ld with word := some (cleanNode env (childArg c)) }
      collectItemGo env rest ld' pending (idx + 1)
    else
      let tagText := fragText env c
      let t := pyStripWS tagText
      if pyStartsWith t "(" ∧ ¬ pyEndsWith t ")" then
        collectItemGo env rest ld tagText (idx + 1)
      else if ¬ pyStartsWith t "(" ∧ pyEndsWith t ")" then
        collectItemGo env rest (applyTags env (pending ++ tagText) ld) "" (idx + 1)
      else if t = "," ∨ t = "/" then
        let r := collectItemGo env rest {} pending (idx + 1)
        (ld :: r.1, r.2)
      else if pending ≠ "" then
        collectItemGo env rest ld (pending ++ tagText) (idx + 1)
      else
        collectItemGo env rest (applyTags env tagText ld) pending (idx + 1)

/-- Pure form of `linkStep`: records produced by one found node, and the new
sense state. -/
def collectStep (env : Env) (n : WikiNode) (sense : String) (sidx : Nat) :
    List Linkage × String × Nat :=
  if n.kind = NodeKind.TEMPLATE ∧ n.name = "(" then
    let sense' := cleanNode env (optArgD (pget n.params (.num 1)))
    let sit := (pget n.params (.num 2)).getD (.str "0")
    let sidx' :=
      match sit with
      | .str s => if pyIsDigit s then pyToNat s else sidx
      | .node _ => sidx
    ([], sense', sidx')
  else if n.kind = NodeKind.LIST_ITEM ∧ n.sarg = ";" then
    let s0 := cleanNode env (.ofChildren n.children)
    match senseIndexMatch s0 with
    | some (t, k) => ([], t, k)
    | none => ([], s0, sidx)
  else
    let r := collectItemGo env (invertFindChild [NodeKind.LIST] n) (initLd sense sidx) "" 0
    (r.1 ++ (if r.2.1.word.isSome then [r.2.1] else []), sense, sidx)

/-- Pure form of `linkSteps`: all records produced by a node list, in order. -/
def collectSteps (env : Env) : List WikiNode → String → Nat → List Linkage
  | [], _, _ => []
  | n :: rest, s, i =>
    let r := collectStep env n s i
    r.1 ++ collectSteps env rest r.2.1 r.2.2

/-- All linkage records that `process_linkage_list` produces for a section
node, in the top-to-bottom order of the found list items. -/
def linkageCollect (env : Env) (levelNode : WikiNode) : List Linkage :=
  collectSteps env (findChildRec [NodeKind.LIST_ITEM, NodeKind.TEMPLATE] levelNode) "" 0

/-- Pure form of `derivesInner`. -/
def collectDerivesInner (env : Env) : List WikiNode → String → String → List Linkage
  | [], _, _ => []
  | n :: rest, lc, ln =>
    if n.kind = NodeKind.TEMPLATE ∧ n.name = "L" then
      collectDerivesInner env rest (rawStr (pget n.params (.num 1))) (cleanNode env (.ofNode n))
    else if n.kind = NodeKind.LINK ∨ (n.kind = NodeKind.TEMPLATE ∧ n.name = "lien") then
      { lang_code := lc, lang := ln, word := some (cleanNode env (.ofNode n)) } ::
        collectDerivesInner env rest lc ln
    else
      collectDerivesInner env rest lc ln

/-- Pure form of `derivesItems`. -/
def collectDerivesItems (env : Env) : List WikiNode → List Linkage
  | [] => []
  | item :: rest =>
    collectDerivesInner env (findChild [NodeKind.TEMPLATE, NodeKind.LINK] item) "" "" ++
      collectDerivesItems env rest

/-- All derived-term records that `process_derives_autres_list` produces. -/
def derivesCollect (env : Env) (levelNode : WikiNode) : List Linkage :=
  collectDerivesItems env (findChildRec [NodeKind.LIST_ITEM] levelNode)

/-- Append a batch of linkage records to one list of the last entry. -/
def appendAll (st : PState) (f : LinkageField) (ls : List Linkage) : PState :=
  match st.entries.getLast? with
  | some last => st.setLast (last.setLfield f (last.lfield f ++ ls))
  | none => st

/-- Drop only trailing Python whitespace (what the end-anchored regex
`\\s*\\(...\\)$` removes in front of the parenthesis). -/
def pyRStripWS (s : String) : String :=
  ⟨(s.data.reverse.dropWhile isPyWS).reverse⟩

/-- A fragment that opens a parenthesized tag buffer: its stripped text
starts with `(` and does not end with `)`. -/
def openFragOK (env : Env) (c : Child) : Prop :=
  pyStartsWith (pyStripWS (fragText env c)) "(" = true ∧
    pyEndsWith (pyStripWS (fragText env c)) ")" = false

/-- A fragment that is concatenated onto a pending buffer: neither an opener
nor a closer nor a `,`/`/` separator. -/
def midFragOK (env : Env) (c : Child) : Prop :=
  pyStartsWith (pyStripWS (fragText env c)) "(" = false ∧
    pyEndsWith (pyStripWS (fragText env c)) ")" = false ∧
    pyStripWS (fragText env c) ≠ "," ∧ pyStripWS (fragText env c) ≠ "/"

/-- A fragment that closes a pending buffer: its stripped text ends with `)`
and does not start with `(`. -/
def closeFragOK (env : Env) (c : Child) : Prop :=
  pyStartsWith (pyStripWS (fragText env c)) "(" = false ∧
    pyEndsWith (pyStripWS (fragText env c)) ")" = true

/-- Well-formedness of a LINK node produced by the external parser: either no
link arguments, or the first link argument starts with a raw string (the shape
`conj_title = link.largs[0][0]` followed by `.startswith` relies on). -/
def linkWF (l : WikiNode) : Prop :=
  l.largs = [] ∨ ∃ s t rargs, l.largs = (Child.str s :: t) :: rargs

/-- Well-formedness of the external expander: every LINK child of an expanded
template is link-wellformed. -/
def EnvLinksWF (env : Env) : Prop :=
  ∀ n, ∀ l ∈ findChild [NodeKind.LINK] (env.expand n), linkWF l

/-- The store references reachable from the last entry during one form-line
call: the forms list of `page_data[-1]` and (because `process_conj_template`
may re-point `page_data[-1].forms` there) the forms list of `page_data[-2]`. -/
def inRefs (st : PState) (r : Nat) : Prop :=
  r = (lastD st).formsRef ∨ (st.entries.dropLast ≠ [] ∧ r = (secondD st).formsRef)

/-- The frame of one form-line call: the entry records other than the last
are untouched, the last entry's forms reference stays among the reachable
references, and every forms-list cell outside the reachable references is
untouched. -/
def FrameFL (st st' : PState) : Prop :=
  st'.entries ≠ [] ∧
  st'.entries.dropLast = st.entries.dropLast ∧
  inRefs st (lastD st').formsRef ∧
  ∀ r, ¬ inRefs st r → st'.store r = st.store r


/-! ## Concrete fixtures used by witnesses and counterexamples -/

def emptyRoot : WikiNode := .mk .ROOT "" [] "" [] []

/-- A benign environment: constant expansions with no links, identity clean
on raw strings. -/
def envW : Env where
  cleanFn := fun a => match a with | .ofStr s => s | _ => ""
  expand := fun _ => emptyRoot
  expandPre := fun _ => emptyRoot
  splitTagText := fun s => [s]
  pronTemplates := ["pron"]
  processPronTemplate := fun _ => ""
  linkageSubtitles := fun s => if s = "synonymes" then some .synonyms else none
  extractConjugation := fun _ fs => fs

/-- An environment whose cleaner keeps strings and template names, and whose
tag splitter is the identity. -/
def envT : Env where
  cleanFn := fun a =>
    match a with
    | .ofStr s => s
    | .ofNode n => n.name
    | .ofChildren cs =>
        String.join (cs.map fun c => match c with | .str s => s | .node _ => "")
    | .null => ""
  expand := fun _ => emptyRoot
  expandPre := fun _ => emptyRoot
  splitTagText := fun s => [s]
  pronTemplates := ["pron"]
  processPronTemplate := fun _ => ""
  linkageSubtitles := fun s => if s = "synonymes" then some .synonyms else none
  extractConjugation := fun _ fs => fs

/-- A one-entry state with empty forms store. -/
def st1e : PState := { entries := [{}], store := fun _ => [] }

def itemC4 : WikiNode :=
  .mk .LIST_ITEM "" [] "*" [.str "w", .str "(a", .str "(b", .str "c)"] []

def lvlC4 : WikiNode :=
  .mk .ROOT "" [] "" [.node (.mk .LIST "" [] "*" [.node itemC4] [])] []

/-- The synonyms produced for a list item `w (a (b c)`. -/
def c4Syn : List Linkage :=
  match processLinkageList envT (some .synonyms) lvlC4 st1e with
  | .ok st => (lastD st).synonyms
  | .error _ => []

def conjNode : WikiNode := .mk .TEMPLATE "conj" [] "" [] []
def equivNode : WikiNode := .mk .TEMPLATE "équiv-pour" [] "" [] []
def linkNodeC : WikiNode := .mk .LINK "" [] "" [] [[Child.str "Conjugaison:xval"]]
def linkRootC : WikiNode := .mk .ROOT "" [] "" [.node linkNodeC] []
def bdiNode : WikiNode := .mk .HTML "bdi" [] "" [] []
def equivRootC : WikiNode := .mk .ROOT "" [] "" [.node bdiNode] []

/-- Environment for the aliasing counterexample: a conj template expands to a
conjugation-page link, an équiv-pour template expands to one `bdi` form. -/
def envC2 : Env where
  cleanFn := fun a =>
    match a with
    | .ofNode n => if n.name = "bdi" then "yform" else ""
    | _ => ""
  expand := fun n =>
    if n.name = "conj" then linkRootC
    else if n.name = "équiv-pour" then equivRootC
    else emptyRoot
  expandPre := fun _ => emptyRoot
  splitTagText := fun s => [s]
  pronTemplates := []
  processPronTemplate := fun _ => ""
  linkageSubtitles := fun _ => none
  extractConjugation := fun _ fs => fs

def f0 : Form := { form := "f0", source := "Conjugaison:xval" }

/-- Two entries of the same language and part of speech; the first entry's
forms (cell 0) came from the conjugation page of the link above. -/
def stC2 : PState :=
  { entries := [{ lang_code := "fr", pos := "verb", formsRef := 0 },
                { lang_code := "fr", pos := "verb", formsRef := 1 }],
    store := fun r => if r = 0 then [f0] else [] }

/-- Forms cell 0 (the forms list of the first, non-last entry) after a form
line with a conj template (which aliases it) and an équiv-pour template
(which appends through the alias). -/
def c2After : List Form :=
  match extractFormLine envC2 stC2 [.node conjNode, .node equivNode] with
  | .ok st' => st'.store 0
  | .error _ => []

/-- Environment for the conj counterexample: extraction appends a marker. -/
def envC3 : Env where
  cleanFn := fun _ => ""
  expand := fun n => if n.name = "conj" then linkRootC else emptyRoot
  expandPre := fun _ => emptyRoot
  splitTagText := fun s => [s]
  pronTemplates := []
  processPronTemplate := fun _ => ""
  linkageSubtitles := fun _ => none
  extractConjugation := fun t fs => fs ++ [{ form := "MARK", source := t }]

/-- Two entries matching in language and part of speech, but with the
previous entry's forms empty. -/
def stC3 : PState :=
  { entries := [{ lang_code := "fr", pos := "verb", formsRef := 0 },
                { lang_code := "fr", pos := "verb", formsRef := 1 }],
    store := fun _ => [] }

def c3Res : PState :=
  match processConjTemplate envC3 conjNode stC3 with
  | .ok st' => st'
  | .error _ => stC3

def pronNode : WikiNode := .mk .TEMPLATE "pron" [] "" [] []
def jaNode : WikiNode := .mk .TEMPLATE "ja-mot" [] "" [] []
def locNode : WikiNode := .mk .TEMPLATE "locx" [] "" [] []

/-- Environment where every template renders as the parenthesized text
`(Paris)` and only `pron` extracts an IPA. -/
def envC8 : Env where
  cleanFn := fun a => match a with | .ofNode _ => "(Paris)" | _ => ""
  expand := fun _ => emptyRoot
  expandPre := fun _ => emptyRoot
  splitTagText := fun s => [s]
  pronTemplates := ["pron"]
  processPronTemplate := fun n => if n.name = "pron" then "ipa1" else ""
  linkageSubtitles := fun _ => none
  extractConjugation := fun _ fs => fs

def c8Sounds : List Sound :=
  match extractFormLine envC8 st1e [.node pronNode, .node jaNode] with
  | .ok st' => (lastD st').sounds
  | .error _ => []

/-- A one-entry state whose entry already has one sound. -/
def stC8b : PState := { entries := [{ sounds := [{ ipa := "x" }] }], store := fun _ => [] }

def spanNode : WikiNode := .mk .HTML "span" [] "" [] []
def jaRoot : WikiNode := .mk .ROOT "" [] "" [.node spanNode, .node spanNode] []

/-- Environment whose ja-mot expansion holds two spans cleaning to `hep`. -/
def envC6 : Env where
  cleanFn := fun a =>
    match a with
    | .ofNode n => if n.name = "span" then "hep" else ""
    | .ofStr s => s
    | _ => ""
  expand := fun _ => jaRoot
  expandPre := fun _ => emptyRoot
  splitTagText := fun s => [s]
  pronTemplates := ["pron"]
  processPronTemplate := fun _ => ""
  linkageSubtitles := fun _ => none
  extractConjugation := fun _ fs => fs

def zlNode : WikiNode := .mk .TEMPLATE "zh-lien" [] "" [] []

def itemC5 : WikiNode := .mk .LIST_ITEM "" [] ";" [.str "Argent (1)"] []

def parNode : WikiNode :=
  .mk .TEMPLATE "(" [(.num 1, .str "sens txt"), (.num 2, .str "3")] "" [] []

def itemW : WikiNode := .mk .LIST_ITEM "" [] "*" [.str "mot"] []

def eqNode : WikiNode :=
  .mk .TEMPLATE "équiv-pour"
    [(.num 1, .str "féminin"), (.num 2, .str "chatte"), (.num 4, .str "chattes")] "" [] []

end Wx


namespace WxOld

open Wx

/-! ## The old dict-based `form_line.py` (under `src/wiktextract/`) -/

/-- A form dict `{"form": ..., "tags": [...]}` of the old extractor: the
`form` value is the raw template parameter (string or node), not cleaned. -/
structure OldForm where
  form : Child
  tags : List String

/-- Python `f"pour {form_type}"` for a raw `template_parameters.get(1)`
value: `None` prints as `None`; the rendering of a node value by `str` is
external and modelled by a placeholder. -/
def pyFStr : Option Child → String
  | none => "None"
  | some (.str s) => s
  | some (.node _) => "<node>"

/-- `process_equiv_pour_template` of the old extractor (`form_line.py` lines
37-47): for each positional parameter in `range(2, 8)` that is present,
append a form dict tagged `pour <parameter 1>` to the entry's forms list. -/
def processEquivPourTemplateOld (n : WikiNode) (forms : List OldForm) :
    List OldForm :=
  (List.range' 2 6).foldl
    (fun acc i =>
      match pget n.params (.num i) with
      | some v => acc ++ [{ form := v, tags := ["pour " ++ pyFStr (pget n.params (.num 1))] }]
      | none => acc)
    forms

/-- The forms one équiv-pour template contributes: the present parameters
among positions 2..7, each tagged with parameter 1. -/
def equivAppended (n : WikiNode) : List OldForm :=
  (List.range' 2 6).filterMap
    (fun i => (pget n.params (.num i)).map
      (fun v => { form := v, tags := ["pour " ++ pyFStr (pget n.params (.num 1))] }))

end WxOld

namespace Wx

/-! ## State algebra -/

theorem PState.ext_eq {st st' : PState}
    (he : st.entries = st'.entries) (hs : st.store = st'.store) : st = st' := by
  cases st; cases st'; cases he; cases hs; rfl

theorem dropLast_append_getLastD {α : Type _} :
    ∀ (l : List α) (d : α), l ≠ [] → l.dropLast ++ [l.getLastD d] = l
  | [a], _, _ => rfl
  | a :: b :: t, d, _ => by
      have ih := dropLast_append_getLastD (b :: t) a (by simp)
      simpa [List.dropLast] using ih

theorem lastD_setLast (st : PState) (e : WordEntry) : lastD (st.setLast e) = e := by
  simp [lastD, PState.setLast]

theorem dropLast_setLast (st : PState) (e : WordEntry) :
    (st.setLast e).entries.dropLast = st.entries.dropLast := by
  simp [PState.setLast]

theorem store_setLast (st : PState) (e : WordEntry) :
    (st.setLast e).store = st.store := rfl

theorem entries_setLast_ne (st : PState) (e : WordEntry) :
    (st.setLast e).entries ≠ [] := by
  simp [PState.setLast]

theorem getLastE_eq (st : PState) (h : st.entries ≠ []) :
    getLastE st = .ok (lastD st) := by
  unfold getLastE lastD
  cases h' : st.entries.getLast? with
  | none => exact absurd (List.getLast?_eq_none_iff.mp h') h
  | some e => simp [List.getLastD_eq_getLast?, h']

theorem setLast_lastD (st : PState) (h : st.entries ≠ []) :
    st.setLast (lastD st) = st := by
  refine PState.ext_eq ?_ rfl
  exact dropLast_append_getLastD st.entries {} h

theorem setLast_setLast (st : PState) (a b : WordEntry) :
    (st.setLast a).setLast b = st.setLast b := by
  refine PState.ext_eq ?_ rfl
  simp [PState.setLast]

theorem lfield_setLfield (e : WordEntry) (f : LinkageField) (l : List Linkage) :
    (e.setLfield f l).lfield f = l := by
  cases f <;> rfl

theorem setLfield_setLfield (e : WordEntry) (f : LinkageField) (l l' : List Linkage) :
    (e.setLfield f l).setLfield f l' = e.setLfield f l' := by
  cases f <;> rfl

theorem setLfield_self (e : WordEntry) (f : LinkageField) :
    e.setLfield f (e.lfield f) = e := by
  cases f <;> rfl

theorem setLfield_formsRef (e : WordEntry) (f : LinkageField) (l : List Linkage) :
    (e.setLfield f l).formsRef = e.formsRef := by
  cases f <;> rfl

theorem appendAll_of_ne (st : PState) (f : LinkageField) (ls : List Linkage)
    (h : st.entries ≠ []) :
    appendAll st f ls = st.setLast ((lastD st).setLfield f ((lastD st).lfield f ++ ls)) := by
  unfold appendAll
  cases h' : st.entries.getLast? with
  | none => exact absurd (List.getLast?_eq_none_iff.mp h') h
  | some e => simp [lastD, List.getLastD_eq_getLast?, h']

theorem appendAll_nil (st : PState) (f : LinkageField) (h : st.entries ≠ []) :
    appendAll st f [] = st := by
  rw [appendAll_of_ne st f [] h]
  rw [List.append_nil, setLfield_self, setLast_lastD st h]

theorem appendAll_entries_ne (st : PState) (f : LinkageField) (ls : List Linkage)
    (h : st.entries ≠ []) : (appendAll st f ls).entries ≠ [] := by
  rw [appendAll_of_ne st f ls h]
  exact entries_setLast_ne _ _

theorem appendAll_dropLast (st : PState) (f : LinkageField) (ls : List Linkage) :
    (appendAll st f ls).entries.dropLast = st.entries.dropLast := by
  unfold appendAll
  cases h' : st.entries.getLast? with
  | none => rfl
  | some e => exact dropLast_setLast _ _

theorem appendAll_store (st : PState) (f : LinkageField) (ls : List Linkage) :
    (appendAll st f ls).store = st.store := by
  unfold appendAll
  cases h' : st.entries.getLast? <;> rfl

theorem appendAll_lastD (st : PState) (f : LinkageField) (ls : List Linkage)
    (h : st.entries ≠ []) :
    lastD (appendAll st f ls) = (lastD st).setLfield f ((lastD st).lfield f ++ ls) := by
  rw [appendAll_of_ne st f ls h, lastD_setLast]

theorem appendAll_append (st : PState) (f : LinkageField) (xs ys : List Linkage)
    (h : st.entries ≠ []) :
    appendAll st f (xs ++ ys) = appendAll (appendAll st f xs) f ys := by
  rw [appendAll_of_ne st f xs h,
    appendAll_of_ne _ f ys (entries_setLast_ne _ _),
    appendAll_of_ne st f (xs ++ ys) h]
  rw [lastD_setLast, setLast_setLast, setLfield_setLfield, lfield_setLfield,
    List.append_assoc]

theorem appendLinkage_eq (st : PState) (f : LinkageField) (ld : Linkage)
    (h : st.entries ≠ []) :
    appendLinkage st (some f) ld = .ok (appendAll st f [ld]) := by
  unfold appendLinkage
  rw [getLastE_eq st h, appendAll_of_ne st f [ld] h]
  rfl

/-! ## Refinement: the imperative loops append exactly the collected records -/

theorem exc_bind_ok {ε α β : Type _} (a : α) (k : α → Except ε β) :
    (Except.ok a >>= k) = k a := rfl

theorem exc_bind_error {ε α β : Type _} (e : ε) (k : α → Except ε β) :
    (Except.error e >>= k) = Except.error e := rfl

theorem itemLoopEq (env : Env) (f : LinkageField) :
    ∀ (frags : List Child) (st : PState) (ld : Linkage) (pending : String) (idx : Nat),
    st.entries ≠ [] →
    itemLoop env (some f) frags st ld pending idx =
      .ok (appendAll st f (collectItemGo env frags ld pending idx).1,
           (collectItemGo env frags ld pending idx).2)
  | [], st, ld, pending, idx, h => by
      simp [itemLoop, collectItemGo, appendAll_nil st f h]
  | c :: rest, st, ld, pending, idx, h => by
      simp only [itemLoop, collectItemGo]
      by_cases h0 : idx = 0 ∨ ld.word.isNone
      · simp only [if_pos h0]
        exact itemLoopEq env f rest st _ pending (idx + 1) h
      · simp only [if_neg h0]
        have hbind : fragTextE env st c = Except.ok (fragText env c) := by
          cases c with
          | str s => rfl
          | node n => rw [fragTextE, fragText, getLastE_eq st h]; rfl
        rw [hbind, exc_bind_ok]
        by_cases h1 : pyStartsWith (pyStripWS (fragText env c)) "(" ∧
            ¬ pyEndsWith (pyStripWS (fragText env c)) ")"
        · simp only [if_pos h1]
          exact itemLoopEq env f rest st ld (fragText env c) (idx + 1) h
        · simp only [if_neg h1]
          by_cases h2 : ¬ pyStartsWith (pyStripWS (fragText env c)) "(" ∧
              pyEndsWith (pyStripWS (fragText env c)) ")"
          · simp only [if_pos h2]
            exact itemLoopEq env f rest st _ "" (idx + 1) h
          · simp only [if_neg h2]
            by_cases h3 : pyStripWS (fragText env c) = "," ∨ pyStripWS (fragText env c) = "/"
            · simp only [if_pos h3]
              rw [appendLinkage_eq st f ld h, exc_bind_ok]
              rw [itemLoopEq env f rest (appendAll st f [ld]) {} pending (idx + 1)
                (appendAll_entries_ne st f [ld] h)]
              have : ld :: (collectItemGo env rest {} pending (idx + 1)).1 =
                  [ld] ++ (collectItemGo env rest {} pending (idx + 1)).1 := rfl
              rw [this, appendAll_append st f _ _ h]
            · simp only [if_neg h3]
              by_cases h4 : pending ≠ ""
              · simp only [if_pos h4]
                exact itemLoopEq env f rest st ld (pending ++ fragText env c) (idx + 1) h
              · simp only [if_neg h4]
                exact itemLoopEq env f rest st _ pending (idx + 1) h

theorem linkStepEq (env : Env) (f : LinkageField) (n : WikiNode) (st : PState)
    (sense : String) (sidx : Nat) (h : st.entries ≠ []) :
    linkStep env (some f) n st sense sidx =
      .ok (appendAll st f (collectStep env n sense sidx).1,
           (collectStep env n sense sidx).2) := by
  unfold linkStep collectStep
  by_cases hp : n.kind = NodeKind.TEMPLATE ∧ n.name = "("
  · simp only [if_pos hp]
    rw [appendAll_nil st f h]
  · simp only [if_neg hp]
    by_cases hs : n.kind = NodeKind.LIST_ITEM ∧ n.sarg = ";"
    · simp only [if_pos hs]
      cases senseIndexMatch (cleanNode env (.ofChildren n.children)) with
      | none => rw [appendAll_nil st f h]
      | some tk => rw [appendAll_nil st f h]
    · simp only [if_neg hs]
      rw [itemLoopEq env f (invertFindChild [NodeKind.LIST] n) st (initLd sense sidx) "" 0 h,
        exc_bind_ok]
      by_cases hw : (collectItemGo env (invertFindChild [NodeKind.LIST] n)
          (initLd sense sidx) "" 0).2.1.word.isSome
      · simp only [if_pos hw]
        rw [appendLinkage_eq _ f _ (appendAll_entries_ne st f _ h), exc_bind_ok,
          ← appendAll_append st f _ _ h]
      · simp only [if_neg hw]
        rw [List.append_nil]

theorem linkStepsEq (env : Env) (f : LinkageField) :
    ∀ (ns : List WikiNode) (st : PState) (sense : String) (sidx : Nat),
    st.entries ≠ [] →
    linkSteps env (some f) ns st sense sidx =
      .ok (appendAll st f (collectSteps env ns sense sidx))
  | [], st, sense, sidx, h => by
      simp [linkSteps, collectSteps, appendAll_nil st f h]
  | n :: rest, st, sense, sidx, h => by
      simp only [linkSteps, collectSteps]
      rw [linkStepEq env f n st sense sidx h, exc_bind_ok]
      rw [linkStepsEq env f rest _ _ _ (appendAll_entries_ne st f _ h)]
      rw [← appendAll_append st f _ _ h]

theorem processLinkageListEq (env : Env) (f : LinkageField) (levelNode : WikiNode)
    (st : PState) (h : st.entries ≠ []) :
    processLinkageList env (some f) levelNode st =
      .ok (appendAll st f (linkageCollect env levelNode)) := by
  unfold processLinkageList linkageCollect
  exact linkStepsEq env f _ st "" 0 h

theorem derivedField_set (e : WordEntry) (l : List Linkage) :
    { e with derived := l } = e.setLfield .derived l := rfl

theorem derivesInnerEq (env : Env) :
    ∀ (ns : List WikiNode) (lc ln : String) (st : PState),
    st.entries ≠ [] →
    derivesInner env ns lc ln st =
      .ok (appendAll st .derived (collectDerivesInner env ns lc ln))
  | [], lc, ln, st, h => by
      simp [derivesInner, collectDerivesInner, appendAll_nil st .derived h]
  | n :: rest, lc, ln, st, h => by
      simp only [derivesInner, collectDerivesInner]
      by_cases hL : n.kind = NodeKind.TEMPLATE ∧ n.name = "L"
      · simp only [if_pos hL]
        exact derivesInnerEq env rest _ _ st h
      · simp only [if_neg hL]
        by_cases hlk : n.kind = NodeKind.LINK ∨ (n.kind = NodeKind.TEMPLATE ∧ n.name = "lien")
        · simp only [if_pos hlk]
          rw [getLastE_eq st h, exc_bind_ok]
          have hone : st.setLast { lastD st with
              derived := (lastD st).derived ++
                [{ lang_code := lc, lang := ln, word := some (cleanNode env (.ofNode n)) }] } =
              appendAll st .derived
                [{ lang_code := lc, lang := ln, word := some (cleanNode env (.ofNode n)) }] := by
            rw [appendAll_of_ne st .derived _ h]
            rfl
          rw [hone, derivesInnerEq env rest lc ln _ (appendAll_entries_ne st .derived _ h)]
          rw [← appendAll_append st .derived _ _ h]
          rfl
        · simp only [if_neg hlk]
          exact derivesInnerEq env rest lc ln st h

theorem derivesItemsEq (env : Env) :
    ∀ (items : List WikiNode) (st : PState),
    st.entries ≠ [] →
    derivesItems env items st = .ok (appendAll st .derived (collectDerivesItems env items))
  | [], st, h => by
      simp [derivesItems, collectDerivesItems, appendAll_nil st .derived h]
  | item :: rest, st, h => by
      simp only [derivesItems, collectDerivesItems]
      rw [derivesInnerEq env _ "" "" st h, exc_bind_ok]
      rw [derivesItemsEq env rest _ (appendAll_entries_ne st .derived _ h)]
      rw [← appendAll_append st .derived _ _ h]

theorem processDerivesAutresListEq (env : Env) (levelNode : WikiNode) (st : PState)
    (h : st.entries ≠ []) :
    processDerivesAutresList env levelNode st =
      .ok (appendAll st .derived (derivesCollect env levelNode)) := by
  unfold processDerivesAutresList derivesCollect
  exact derivesItemsEq env _ st h

/-! ## Sense fields are fixed at record creation -/

theorem applyTags_sense (env : Env) (txt : String) (ld : Linkage) :
    (applyTags env txt ld).sense = ld.sense ∧
      (applyTags env txt ld).sense_index = ld.sense_index := by
  unfold applyTags
  generalize env.splitTagText txt = ts
  induction ts generalizing ld with
  | nil => exact ⟨rfl, rfl⟩
  | cons t ts ih =>
      rw [List.foldl_cons]
      refine ((ih _).imp (fun h => h.trans ?_) (fun h => h.trans ?_)) <;>
      · by_cases h1 : pyStartsWith t "— "
        · simp [h1]
        · by_cases h2 : t = ""
          · subst h2
            simp [h1]
          · simp [h1, h2]

theorem processLienTemplate_sense (env : Env) (n : WikiNode) (ld : Linkage) :
    (processLienTemplate env n ld).sense = ld.sense ∧
      (processLienTemplate env n ld).sense_index = ld.sense_index := by
  unfold processLienTemplate
  cases pget n.params (.str "tr") <;> cases pget n.params (.str "sens") <;>
    exact ⟨rfl, rfl⟩

theorem processZhLienTemplate_sense (env : Env) (n : WikiNode) (ld : Linkage) :
    (processZhLienTemplate env n ld).sense = ld.sense ∧
      (processZhLienTemplate env n ld).sense_index = ld.sense_index := by
  unfold processZhLienTemplate
  by_cases h : cleanNode env (optArgD (pget n.params (.num 3))) ≠ "" <;>
    simp [h]

theorem processLinkageTemplate_sense (env : Env) (n : WikiNode) (ld : Linkage) :
    (processLinkageTemplate env n ld).sense = ld.sense ∧
      (processLinkageTemplate env n ld).sense_index = ld.sense_index := by
  unfold processLinkageTemplate
  by_cases h1 : n.name = "lien"
  · simpa [h1] using processLienTemplate_sense env n ld
  · by_cases h2 : pyStartsWith n.name "zh-lien"
    · simpa [h1, h2] using processZhLienTemplate_sense env n ld
    · simp [h1, h2]

/-- The linkage record that the loop is building keeps the sense fields given
to it; in particular the first record an item produces carries the sense that
was current when the item started. -/
theorem collectItemGo_firstSense (env : Env) :
    ∀ (frags : List Child) (ld : Linkage) (pending : String) (idx : Nat) (l : Linkage),
    ((collectItemGo env frags ld pending idx).1 ++
      (if (collectItemGo env frags ld pending idx).2.1.word.isSome
        then [(collectItemGo env frags ld pending idx).2.1] else [])).head? = some l →
    l.sense = ld.sense ∧ l.sense_index = ld.sense_index
  | [], ld, pending, idx, l => by
      simp only [collectItemGo]
      by_cases hw : ld.word.isSome
      · simp only [if_pos hw, List.nil_append, List.head?_cons]
        intro h
        cases h
        exact ⟨rfl, rfl⟩
      · simp [if_neg hw]
  | c :: rest, ld, pending, idx, l => by
      simp only [collectItemGo]
      by_cases h0 : idx = 0 ∨ ld.word.isNone
      · simp only [if_pos h0]
        intro h
        cases c with
        | node n =>
            by_cases hk : n.kind = NodeKind.TEMPLATE
            · simp only [if_pos hk] at h
              have := collectItemGo_firstSense env rest _ pending (idx + 1) l h
              have hs := processLinkageTemplate_sense env n ld
              exact ⟨this.1.trans hs.1, this.2.trans hs.2⟩
            · simp only [if_neg hk] at h
              have hrec := collectItemGo_firstSense env rest _ pending (idx + 1) l h
              exact hrec
        | str s =>
            have hrec := collectItemGo_firstSense env rest _ pending (idx + 1) l h
            exact hrec
      · simp only [if_neg h0]
        by_cases h1 : pyStartsWith (pyStripWS (fragText env c)) "(" ∧
            ¬ pyEndsWith (pyStripWS (fragText env c)) ")"
        · simp only [if_pos h1]
          exact collectItemGo_firstSense env rest ld _ (idx + 1) l
        · simp only [if_neg h1]
          by_cases h2 : ¬ pyStartsWith (pyStripWS (fragText env c)) "(" ∧
              pyEndsWith (pyStripWS (fragText env c)) ")"
          · simp only [if_pos h2]
            intro h
            have := collectItemGo_firstSense env rest _ "" (idx + 1) l h
            have hs := applyTags_sense env (pending ++ fragText env c) ld
            exact ⟨this.1.trans hs.1, this.2.trans hs.2⟩
          · simp only [if_neg h2]
            by_cases h3 : pyStripWS (fragText env c) = "," ∨ pyStripWS (fragText env c) = "/"
            · simp only [if_pos h3, List.cons_append, List.head?_cons]
              intro h
              cases h
              exact ⟨rfl, rfl⟩
            · simp only [if_neg h3]
              by_cases h4 : pending ≠ ""
              · simp only [if_pos h4]
                exact collectItemGo_firstSense env rest ld _ (idx + 1) l
              · simp only [if_neg h4]
                intro h
                have := collectItemGo_firstSense env rest _ pending (idx + 1) l h
                have hs := applyTags_sense env (fragText env c) ld
                exact ⟨this.1.trans hs.1, this.2.trans hs.2⟩

/-! ## Every emitted record has its `word` field set -/

theorem collectItemGo_words (env : Env) :
    ∀ (frags : List Child) (ld : Linkage) (pending : String) (idx : Nat),
    ∀ l ∈ (collectItemGo env frags ld pending idx).1, l.word.isSome
  | [], ld, pending, idx => by simp [collectItemGo]
  | c :: rest, ld, pending, idx => by
      simp only [collectItemGo]
      by_cases h0 : idx = 0 ∨ ld.word.isNone
      · simp only [if_pos h0]
        exact collectItemGo_words env rest _ pending (idx + 1)
      · simp only [if_neg h0]
        have hw : ld.word.isSome := by
          rcases not_or.mp h0 with ⟨-, h⟩
          cases hld : ld.word with
          | none => exact absurd (by simp [hld]) h
          | some w => simp
        by_cases h1 : pyStartsWith (pyStripWS (fragText env c)) "(" ∧
            ¬ pyEndsWith (pyStripWS (fragText env c)) ")"
        · simp only [if_pos h1]
          exact collectItemGo_words env rest ld _ (idx + 1)
        · simp only [if_neg h1]
          by_cases h2 : ¬ pyStartsWith (pyStripWS (fragText env c)) "(" ∧
              pyEndsWith (pyStripWS (fragText env c)) ")"
          · simp only [if_pos h2]
            exact collectItemGo_words env rest _ "" (idx + 1)
          · simp only [if_neg h2]
            by_cases h3 : pyStripWS (fragText env c) = "," ∨ pyStripWS (fragText env c) = "/"
            · simp only [if_pos h3]
              intro l hl
              rcases List.mem_cons.mp hl with rfl | hl
              · exact hw
              · exact collectItemGo_words env rest _ pending (idx + 1) l hl
            · simp only [if_neg h3]
              by_cases h4 : pending ≠ ""
              · simp only [if_pos h4]
                exact collectItemGo_words env rest ld _ (idx + 1)
              · simp only [if_neg h4]
                exact collectItemGo_words env rest _ pending (idx + 1)

theorem collectStep_words (env : Env) (n : WikiNode) (sense : String) (sidx : Nat) :
    ∀ l ∈ (collectStep env n sense sidx).1, l.word.isSome := by
  unfold collectStep
  by_cases hp : n.kind = NodeKind.TEMPLATE ∧ n.name = "("
  · simp [hp]
  · by_cases hs : n.kind = NodeKind.LIST_ITEM ∧ n.sarg = ";"
    · cases hm : senseIndexMatch (cleanNode env (.ofChildren n.children)) <;>
        simp [hp, hs, hm]
    · simp only [if_neg hp, if_neg hs]
      intro l hl
      rcases List.mem_append.mp hl with hl | hl
      · exact collectItemGo_words env _ _ "" 0 l hl
      · by_cases hw : (collectItemGo env (invertFindChild [NodeKind.LIST] n)
            (initLd sense sidx) "" 0).2.1.word.isSome
        · simp only [if_pos hw, List.mem_singleton] at hl
          exact hl ▸ hw
        · simp [if_neg hw] at hl

theorem collectSteps_words (env : Env) :
    ∀ (ns : List WikiNode) (sense : String) (sidx : Nat),
    ∀ l ∈ collectSteps env ns sense sidx, l.word.isSome
  | [], sense, sidx => by simp [collectSteps]
  | n :: rest, sense, sidx => by
      simp only [collectSteps]
      intro l hl
      rcases List.mem_append.mp hl with hl | hl
      · exact collectStep_words env n sense sidx l hl
      · exact collectSteps_words env rest _ _ l hl

theorem derivesInner_words (env : Env) :
    ∀ (ns : List WikiNode) (lc ln : String),
    ∀ l ∈ collectDerivesInner env ns lc ln, l.word.isSome
  | [], lc, ln => by simp [collectDerivesInner]
  | n :: rest, lc, ln => by
      simp only [collectDerivesInner]
      by_cases hL : n.kind = NodeKind.TEMPLATE ∧ n.name = "L"
      · simp only [if_pos hL]
        exact derivesInner_words env rest _ _
      · simp only [if_neg hL]
        by_cases hlk : n.kind = NodeKind.LINK ∨ (n.kind = NodeKind.TEMPLATE ∧ n.name = "lien")
        · simp only [if_pos hlk]
          intro l hl
          rcases List.mem_cons.mp hl with rfl | hl
          · simp
          · exact derivesInner_words env rest lc ln l hl
        · simp only [if_neg hlk]
          exact derivesInner_words env rest lc ln

/-! ## The pending parenthesized-tag buffer -/

theorem strFoldlAppend (l : List String) :
    ∀ (a : String), List.foldl (fun r s => r ++ s) a l =
      a ++ List.foldl (fun r s => r ++ s) "" l := by
  induction l with
  | nil => intro a; simp
  | cons x xs ih =>
      intro a
      simp only [List.foldl_cons]
      rw [ih (a ++ x), ih ("" ++ x)]
      simp [String.append_assoc]

theorem append_ne_empty_left {s t : String} (h : s ≠ "") : s ++ t ≠ "" := by
  intro he
  apply h
  cases s with
  | mk sd =>
    cases t with
    | mk td =>
      have : sd ++ td = [] := congrArg String.data he
      rcases List.append_eq_nil.mp this with ⟨rfl, rfl⟩
      rfl

/-- While a pending buffer is open, every plain fragment is appended to it
and the record, the produced list and the state all stay as they are; the
closing fragment flushes the whole concatenation through the tag splitter. -/
theorem collectItemGo_buffering (env : Env) :
    ∀ (mids : List Child) (close : Child) (rest : List Child)
      (ld : Linkage) (pending : String) (idx : Nat),
    pending ≠ "" → idx ≠ 0 → ld.word.isSome →
    (∀ m ∈ mids, midFragOK env m) → closeFragOK env close →
    collectItemGo env (mids ++ close :: rest) ld pending idx =
      collectItemGo env rest
        (applyTags env ((pending ++ String.join (mids.map (fragText env))) ++ fragText env close) ld)
        "" (idx + mids.length + 1)
  | [], close, rest, ld, pending, idx, hp, hi, hw, _, hc => by
      simp only [List.nil_append, collectItemGo]
      have h0 : ¬ (idx = 0 ∨ ld.word.isNone) := by
        rintro (h | h)
        · exact hi h
        · rw [Option.isNone_iff_eq_none] at h
          rw [h] at hw
          exact absurd hw (by simp)
      rw [if_neg h0]
      have h1 : ¬ (pyStartsWith (pyStripWS (fragText env close)) "(" ∧
          ¬ pyEndsWith (pyStripWS (fragText env close)) ")") := by
        rintro ⟨hs, -⟩
        rw [hc.1] at hs
        exact Bool.false_ne_true hs
      rw [if_neg h1]
      have h2 : (¬ pyStartsWith (pyStripWS (fragText env close)) "(" ∧
          pyEndsWith (pyStripWS (fragText env close)) ")") := by
        constructor
        · rw [hc.1]; exact Bool.false_ne_true
        · exact hc.2
      rw [if_pos h2]
      simp [String.join]
  | m :: mids, close, rest, ld, pending, idx, hp, hi, hw, hm, hc => by
      have hmOK := hm m (List.mem_cons_self m mids)
      simp only [List.cons_append, collectItemGo]
      have h0 : ¬ (idx = 0 ∨ ld.word.isNone) := by
        rintro (h | h)
        · exact hi h
        · rw [Option.isNone_iff_eq_none] at h
          rw [h] at hw
          exact absurd hw (by simp)
      rw [if_neg h0]
      have h1 : ¬ (pyStartsWith (pyStripWS (fragText env m)) "(" ∧
          ¬ pyEndsWith (pyStripWS (fragText env m)) ")") := by
        rintro ⟨hs, -⟩
        rw [hmOK.1] at hs
        exact Bool.false_ne_true hs
      rw [if_neg h1]
      have h2 : ¬ (¬ pyStartsWith (pyStripWS (fragText env m)) "(" ∧
          pyEndsWith (pyStripWS (fragText env m)) ")") := by
        rintro ⟨-, he⟩
        rw [hmOK.2.1] at he
        exact Bool.false_ne_true he
      rw [if_neg h2]
      have h3 : ¬ (pyStripWS (fragText env m) = "," ∨ pyStripWS (fragText env m) = "/") := by
        rintro (h | h)
        · exact hmOK.2.2.1 h
        · exact hmOK.2.2.2 h
      rw [if_neg h3, if_pos hp]
      show collectItemGo env (mids ++ close :: rest) ld (pending ++ fragText env m) (idx + 1) = _
      rw [collectItemGo_buffering env mids close rest ld (pending ++ fragText env m) (idx + 1)
        (append_ne_empty_left hp) (Nat.succ_ne_zero idx) hw
        (fun x hx => hm x (List.mem_cons_of_mem m hx)) hc]
      have hstr : (pending ++ fragText env m) ++ String.join (mids.map (fragText env)) =
          pending ++ String.join ((m :: mids).map (fragText env)) := by
        simp only [String.join, List.map_cons, List.foldl_cons]
        rw [strFoldlAppend (mids.map (fragText env)) ("" ++ fragText env m)]
        simp [String.append_assoc]
      rw [hstr]
      have harith : idx + 1 + mids.length + 1 = idx + (m :: mids).length + 1 := by
        simp only [List.length_cons]
        omega
      rw [harith]

/-! ## Characterization of the sense-index regex -/

theorem strDataAppend (s t : String) : (s ++ t).data = s.data ++ t.data := rfl

theorem charTakeWhileAppend {α : Type _} (p : α → Bool) :
    ∀ (xs : List α) (y : α) (l : List α),
    (∀ x ∈ xs, p x = true) → p y = false →
    (xs ++ y :: l).takeWhile p = xs
  | [], y, l, _, hy => by simp [List.takeWhile_cons, hy]
  | x :: xs, y, l, hxs, hy => by
      have hx := hxs x (List.mem_cons_self x xs)
      simp only [List.cons_append, List.takeWhile_cons, hx, if_true]
      rw [charTakeWhileAppend p xs y l (fun a ha => hxs a (List.mem_cons_of_mem x ha)) hy]

theorem string_eta (s : String) : String.mk s.data = s := by cases s; rfl

theorem pyIsDigit_ne_nil {ds : String} (hd : pyIsDigit ds = true) : ds.data ≠ [] := by
  intro he
  have hds : ds = "" := by cases ds; cases he; rfl
  rw [hds] at hd
  exact absurd hd (by decide)

theorem pyIsDigit_all {ds : String} (hd : pyIsDigit ds = true) :
    ∀ c ∈ ds.data, c.isDigit = true := by
  unfold pyIsDigit at hd
  simp only [Bool.and_eq_true, List.all_eq_true, decide_eq_true_eq] at hd
  exact hd.2

/-- The end-anchored regex `\s*\((\d+)\)$` on `text ++ "(" ++ digits ++ ")"`:
the match removes the parenthesized number and the whitespace before it and
yields the number. -/
theorem senseIndexMatch_paren (t ds : String) (hd : pyIsDigit ds = true) :
    senseIndexMatch (t ++ "(" ++ ds ++ ")") = some (pyRStripWS t, pyToNat ds) := by
  have hrev : (t ++ "(" ++ ds ++ ")").data.reverse =
      ')' :: (ds.data.reverse ++ ('(' :: t.data.reverse)) := by
    simp [strDataAppend, show "(".data = ['('] from rfl, show ")".data = [')'] from rfl]
  unfold senseIndexMatch
  rw [hrev]
  have htw : (ds.data.reverse ++ ('(' :: t.data.reverse)).takeWhile Char.isDigit =
      ds.data.reverse := by
    refine charTakeWhileAppend _ _ _ _ ?_ (by decide)
    intro x hx
    exact pyIsDigit_all hd x (List.mem_reverse.mp hx)
  simp only [htw]
  have hne : ds.data.reverse.isEmpty = false := by
    rw [List.isEmpty_eq_false]
    simp [pyIsDigit_ne_nil hd]
  simp only [hne, Bool.false_eq_true, if_false]
  rw [List.drop_left]
  simp [pyRStripWS, pyToNat, string_eta]

/-- The end-anchored regex `\s*\(sens\s*(\d+)\)$` on
`text ++ "(sens " ++ digits ++ ")"`. -/
theorem senseIndexMatch_sens (t ds : String) (hd : pyIsDigit ds = true) :
    senseIndexMatch (t ++ "(sens " ++ ds ++ ")") = some (pyRStripWS t, pyToNat ds) := by
  have hrev : (t ++ "(sens " ++ ds ++ ")").data.reverse =
      ')' :: (ds.data.reverse ++ (' ' :: 's' :: 'n' :: 'e' :: 's' :: '(' :: t.data.reverse)) := by
    simp [strDataAppend, show "(sens ".data = ['(', 's', 'e', 'n', 's', ' '] from rfl,
      show ")".data = [')'] from rfl]
  unfold senseIndexMatch
  rw [hrev]
  have htw : (ds.data.reverse ++
      (' ' :: 's' :: 'n' :: 'e' :: 's' :: '(' :: t.data.reverse)).takeWhile Char.isDigit =
      ds.data.reverse := by
    refine charTakeWhileAppend _ _ _ _ ?_ (by decide)
    intro x hx
    exact pyIsDigit_all hd x (List.mem_reverse.mp hx)
  simp only [htw]
  have hne : ds.data.reverse.isEmpty = false := by
    rw [List.isEmpty_eq_false]
    simp [pyIsDigit_ne_nil hd]
  simp only [hne, Bool.false_eq_true, if_false]
  rw [List.drop_left]
  simp [pyRStripWS, pyToNat, string_eta, List.dropWhile,
    show isPyWS ' ' = true from rfl, show isPyWS 's' = false from rfl]

/-! ## Frame reasoning for the form line -/

theorem FrameFL_refl (st : PState) (h : st.entries ≠ []) : FrameFL st st :=
  ⟨h, rfl, Or.inl rfl, fun _ _ => rfl⟩

theorem secondD_eq_of_dropLast {st st' : PState}
    (hdl : st'.entries.dropLast = st.entries.dropLast) : secondD st' = secondD st := by
  unfold secondD
  rw [hdl]

theorem inRefs_mono {st st' : PState} (hdl : st'.entries.dropLast = st.entries.dropLast)
    (hl : inRefs st (lastD st').formsRef) :
    ∀ r, inRefs st' r → inRefs st r := by
  intro r hr
  rcases hr with hr | ⟨hne, hr⟩
  · exact hr ▸ hl
  · right
    refine ⟨by rw [← hdl]; exact hne, ?_⟩
    rw [hr, secondD_eq_of_dropLast hdl]

theorem FrameFL_trans {st st' st'' : PState} (h1 : FrameFL st st') (h2 : FrameFL st' st'') :
    FrameFL st st'' := by
  obtain ⟨he1, hd1, hr1, hs1⟩ := h1
  obtain ⟨he2, hd2, hr2, hs2⟩ := h2
  refine ⟨he2, hd2.trans hd1, inRefs_mono hd1 hr1 _ hr2, ?_⟩
  intro r hr
  rw [hs2 r (fun hin => hr (inRefs_mono hd1 hr1 r hin)), hs1 r hr]

theorem FrameFL_setLast (st : PState) (e : WordEntry)
    (he : inRefs st e.formsRef) : FrameFL st (st.setLast e) :=
  ⟨entries_setLast_ne st e, dropLast_setLast st e, by rw [lastD_setLast]; exact he,
   fun _ _ => rfl⟩

theorem FrameFL_setLast_keep (st : PState) (e : WordEntry)
    (he : e.formsRef = (lastD st).formsRef) : FrameFL st (st.setLast e) :=
  FrameFL_setLast st e (Or.inl he)

theorem FrameFL_setForms (st : PState) (r : Nat) (fs : List Form) (h : st.entries ≠ [])
    (hr : inRefs st r) : FrameFL st (st.setForms r fs) := by
  refine ⟨h, rfl, Or.inl rfl, ?_⟩
  intro r' hr'
  show (if r' = r then fs else st.store r') = st.store r'
  rw [if_neg]
  intro hre
  rw [hre] at hr'
  exact hr' hr

theorem FrameFL_appendFormToLast (st : PState) (f : Form) (h : st.entries ≠ []) :
    FrameFL st (appendFormToLast st (lastD st) f) :=
  FrameFL_setForms st (lastD st).formsRef _ h (Or.inl rfl)

theorem entries_setForms (st : PState) (r : Nat) (fs : List Form) :
    (st.setForms r fs).entries = st.entries := rfl

theorem dropLast_ne_of_len {l : List WordEntry} (h : 1 < l.length) : l.dropLast ≠ [] := by
  have hlen : l.dropLast.length = l.length - 1 := List.length_dropLast l
  intro he
  rw [he] at hlen
  simp at hlen
  omega

theorem equivChildren_ok (env : Env) :
    ∀ (cs : List WikiNode) (formTag : String) (st : PState), st.entries ≠ [] →
    ∃ st', equivChildren env cs formTag st = .ok st' ∧ FrameFL st st'
  | [], formTag, st, h => ⟨st, rfl, FrameFL_refl st h⟩
  | c :: rest, formTag, st, h => by
      simp only [equivChildren]
      by_cases h1 : c.kind = NodeKind.ITALIC
      · simp only [if_pos h1]
        exact equivChildren_ok env rest _ st h
      · simp only [if_neg h1]
        by_cases h2 : c.kind = NodeKind.HTML ∧ c.name = "bdi"
        · simp only [if_pos h2]
          by_cases h3 : cleanNode env (.ofNode c) ≠ ""
          · simp only [if_pos h3]
            rw [getLastE_eq st h, exc_bind_ok]
            obtain ⟨st', hok, hfr⟩ := equivChildren_ok env rest formTag
              (appendFormToLast st (lastD st) _) h
            exact ⟨st', hok, FrameFL_trans (FrameFL_appendFormToLast st _ h) hfr⟩
          · simp only [if_neg h3]
            exact equivChildren_ok env rest formTag st h
        · simp only [if_neg h2]
          exact equivChildren_ok env rest formTag st h

theorem zhMotTemplates_ok (env : Env) :
    ∀ (ts : List WikiNode) (st : PState), st.entries ≠ [] →
    ∃ st', zhMotTemplates env ts st = .ok st' ∧ FrameFL st st'
  | [], st, h => ⟨st, rfl, FrameFL_refl st h⟩
  | t :: rest, st, h => by
      simp only [zhMotTemplates]
      by_cases h1 : pyToLower t.name = "lang"
      · simp only [if_pos h1]
        rw [getLastE_eq st h, exc_bind_ok]
        obtain ⟨st', hok, hfr⟩ := zhMotTemplates_ok env rest (st.setLast _)
          (entries_setLast_ne st _)
        refine ⟨st', hok, FrameFL_trans ?_ hfr⟩
        exact FrameFL_setLast_keep st _ rfl
      · simp only [if_neg h1]
        by_cases h2 : t.name = "pron" ∨ t.name = "prononciation"
        · simp only [if_pos h2]
          rw [getLastE_eq st h, exc_bind_ok]
          obtain ⟨st', hok, hfr⟩ := zhMotTemplates_ok env rest (st.setLast _)
            (entries_setLast_ne st _)
          refine ⟨st', hok, FrameFL_trans ?_ hfr⟩
          exact FrameFL_setLast_keep st _ rfl
        · simp only [if_neg h2]
          exact zhMotTemplates_ok env rest st h

theorem processJaMotTemplate_ok (env : Env) (tn : WikiNode) (st : PState)
    (h : st.entries ≠ []) :
    ∃ st', processJaMotTemplate env tn st = .ok st' ∧ FrameFL st st' := by
  unfold processJaMotTemplate
  rw [getLastE_eq st h, exc_bind_ok]
  cases hsp : (findHtmlSpans "span" (env.expand tn)).get? 1 with
  | none => exact ⟨st, rfl, FrameFL_refl st h⟩
  | some sp =>
      by_cases hmem : cleanNode env (.ofNode sp) ∈ (formsOf st (lastD st)).map (·.form)
      · simp only [if_pos hmem]
        exact ⟨st, rfl, FrameFL_refl st h⟩
      · simp only [if_neg hmem]
        exact ⟨_, rfl, FrameFL_appendFormToLast st _ h⟩

theorem conjReuse_true_len {st : PState} {last : WordEntry} {t : String}
    (h : conjReuse st last t = true) : 1 < st.entries.length := by
  by_cases hlen : 1 < st.entries.length
  · exact hlen
  · unfold conjReuse at h
    rw [if_neg hlen] at h
    exact absurd h (by simp)

theorem conjLinks_ok (env : Env) :
    ∀ (links : List WikiNode) (st : PState), st.entries ≠ [] →
    (∀ l ∈ links, linkWF l) →
    ∃ st', conjLinks env links st = .ok st' ∧ FrameFL st st'
  | [], st, h, _ => ⟨st, rfl, FrameFL_refl st h⟩
  | l :: rest, st, h, hwf => by
      have hwfRest : ∀ x ∈ rest, linkWF x := fun x hx => hwf x (List.mem_cons_of_mem l hx)
      simp only [conjLinks]
      rcases hwf l (List.mem_cons_self l rest) with hnil | ⟨s, tl, rargs, hl⟩
      · rw [hnil, show conjLinkTitle [] = Except.ok none from rfl, exc_bind_ok]
        exact conjLinks_ok env rest st h hwfRest
      · rw [hl, show conjLinkTitle ((Child.str s :: tl) :: rargs) = Except.ok (some s) from rfl,
          exc_bind_ok]
        by_cases h1 : ¬ pyStartsWith s "Conjugaison:"
        · simp only [if_pos h1]
          exact conjLinks_ok env rest st h hwfRest
        · simp only [if_neg h1]
          by_cases h2 : pySplit1Last s ∈ groupeNames
          · simp only [if_pos h2]
            exact conjLinks_ok env rest st h hwfRest
          · simp only [if_neg h2]
            rw [getLastE_eq st h, exc_bind_ok]
            cases hr : conjReuse st (lastD st) s with
            | true =>
                simp only [hr, if_true]
                obtain ⟨st', hok, hfr⟩ := conjLinks_ok env rest (st.setLast _)
                  (entries_setLast_ne st _) hwfRest
                refine ⟨st', hok, FrameFL_trans ?_ hfr⟩
                refine FrameFL_setLast st _ (Or.inr ⟨?_, rfl⟩)
                exact dropLast_ne_of_len (conjReuse_true_len hr)
            | false =>
                simp only [hr, Bool.false_eq_true, if_false]
                obtain ⟨st', hok, hfr⟩ := conjLinks_ok env rest (st.setForms _ _) h hwfRest
                refine ⟨st', hok, FrameFL_trans ?_ hfr⟩
                exact FrameFL_setForms st _ _ h (Or.inl rfl)

theorem processConjTemplate_ok (env : Env) (tn : WikiNode) (st : PState)
    (h : st.entries ≠ []) (henv : EnvLinksWF env) :
    ∃ st', processConjTemplate env tn st = .ok st' ∧ FrameFL st st' := by
  unfold processConjTemplate
  obtain ⟨st1, hok, hfr⟩ := conjLinks_ok env (findChild [NodeKind.LINK] (env.expand tn)) st h
    (henv tn)
  rw [hok, exc_bind_ok, getLastE_eq st1 hfr.1, exc_bind_ok]
  by_cases htag : conjTagOf env tn ≠ ""
  · simp only [if_pos htag]
    exact ⟨_, rfl, FrameFL_trans hfr (FrameFL_setLast_keep st1 _ rfl)⟩
  · simp only [if_neg htag]
    exact ⟨st1, rfl, hfr⟩

theorem formLineTemplate_ok (env : Env) (henv : EnvLinksWF env) (pre : String)
    (n : WikiNode) (st : PState) (h : st.entries ≠ []) :
    ∃ st', formLineTemplate env pre n st = .ok st' ∧ FrameFL st st' := by
  unfold formLineTemplate
  by_cases hp : n.name ∈ env.pronTemplates
  · simp only [if_pos hp]
    by_cases hipa : env.processPronTemplate n ≠ ""
    · simp only [if_pos hipa]
      rw [getLastE_eq st h, exc_bind_ok]
      exact ⟨_, rfl, FrameFL_setLast_keep st _ rfl⟩
    · simp only [if_neg hipa]
      exact ⟨st, rfl, FrameFL_refl st h⟩
  · simp only [if_neg hp]
    by_cases he : n.name = "équiv-pour"
    · simp only [if_pos he]
      exact equivChildren_ok env _ "" st h
    · simp only [if_neg he]
      by_cases hz : pyStartsWith n.name "zh-mot"
      · simp only [hz, if_true]
        exact zhMotTemplates_ok env _ st h
      · simp only [hz, Bool.false_eq_true, if_false]
        by_cases hj : n.name = "ja-mot"
        · simp only [if_pos hj]
          exact processJaMotTemplate_ok env n st h
        · simp only [if_neg hj]
          by_cases hcj : isConjName n.name
          · simp only [hcj, if_true]
            exact processConjTemplate_ok env n st h henv
          · simp only [hcj, Bool.false_eq_true, if_false]
            rw [getLastE_eq st h, exc_bind_ok]
            by_cases hparen : pyStartsWith (cleanNode env (.ofNode n)) "(" ∧
                pyEndsWith (cleanNode env (.ofNode n)) ")" ∧
                pre ∈ env.pronTemplates ∧ (lastD st).sounds ≠ []
            · simp only [if_pos hparen]
              exact ⟨_, rfl, FrameFL_setLast_keep st _ rfl⟩
            · simp only [if_neg hparen]
              by_cases hne : pyStripChars "()" (cleanNode env (.ofNode n)) ≠ ""
              · simp only [if_pos hne]
                exact ⟨_, rfl, FrameFL_setLast_keep st _ rfl⟩
              · simp only [if_neg hne]
                exact ⟨st, rfl, FrameFL_refl st h⟩

theorem formLineStep_ok (env : Env) (henv : EnvLinksWF env) (c : Child) (pre : String)
    (st : PState) (h : st.entries ≠ []) :
    ∃ st' pre', formLineStep env st pre c = .ok (st', pre') ∧ FrameFL st st' := by
  cases c with
  | str s => exact ⟨st, pre, rfl, FrameFL_refl st h⟩
  | node n =>
      unfold formLineStep
      by_cases hk : n.kind = NodeKind.TEMPLATE
      · simp only [if_pos hk]
        obtain ⟨st', hok, hfr⟩ := formLineTemplate_ok env henv pre n st h
        exact ⟨st', n.name, by rw [hok, exc_bind_ok], hfr⟩
      · simp only [if_neg hk]
        by_cases hi : n.kind = NodeKind.ITALIC
        · simp only [if_pos hi]
          by_cases ho : cleanNode env (.ofNode n) ≠ "ou"
          · simp only [if_pos ho]
            rw [getLastE_eq st h, exc_bind_ok]
            exact ⟨_, pre, rfl, FrameFL_setLast_keep st _ rfl⟩
          · simp only [if_neg ho]
            exact ⟨st, pre, rfl, FrameFL_refl st h⟩
        · simp only [if_neg hi]
          exact ⟨st, pre, rfl, FrameFL_refl st h⟩

theorem formLineGo_ok (env : Env) (henv : EnvLinksWF env) :
    ∀ (nodes : List Child) (st : PState) (pre : String), st.entries ≠ [] →
    ∃ st', formLineGo env nodes st pre = .ok st' ∧ FrameFL st st'
  | [], st, pre, h => ⟨st, rfl, FrameFL_refl st h⟩
  | c :: rest, st, pre, h => by
      simp only [formLineGo]
      obtain ⟨st1, pre1, hok, hfr⟩ := formLineStep_ok env henv c pre st h
      rw [hok, exc_bind_ok]
      obtain ⟨st', hok', hfr'⟩ := formLineGo_ok env henv rest st1 pre1 hfr.1
      exact ⟨st', hok', FrameFL_trans hfr hfr'⟩

theorem extractFormLine_ok (env : Env) (henv : EnvLinksWF env) (st : PState)
    (nodes : List Child) (h : st.entries ≠ []) :
    ∃ st', extractFormLine env st nodes = .ok st' ∧ FrameFL st st' :=
  formLineGo_ok env henv nodes st "" h

/-! ## A linkage call with an unknown section type cannot mutate the state -/

theorem appendLinkage_none_not_ok (st : PState) (ld : Linkage) (r : PState) :
    appendLinkage st none ld ≠ .ok r := by
  unfold appendLinkage
  cases hge : getLastE st with
  | error e =>
      rw [exc_bind_error]
      exact fun h => Except.noConfusion h
  | ok last =>
      rw [exc_bind_ok]
      exact fun h => Except.noConfusion h

theorem itemLoop_none (env : Env) :
    ∀ (frags : List Child) (st : PState) (ld : Linkage) (pending : String) (idx : Nat)
      (st' : PState) (ld' : Linkage) (p' : String),
    itemLoop env none frags st ld pending idx = .ok (st', ld', p') → st' = st
  | [], st, ld, pending, idx, st', ld', p' => by
      simp only [itemLoop]
      intro h
      cases h
      rfl
  | c :: rest, st, ld, pending, idx, st', ld', p' => by
      simp only [itemLoop]
      by_cases h0 : idx = 0 ∨ ld.word.isNone
      · simp only [if_pos h0]
        exact itemLoop_none env rest st _ pending (idx + 1) st' ld' p'
      · simp only [if_neg h0]
        cases hf : fragTextE env st c with
        | error e =>
            rw [exc_bind_error]
            exact fun h => Except.noConfusion h
        | ok tagText =>
            rw [exc_bind_ok]
            by_cases h1 : pyStartsWith (pyStripWS tagText) "(" ∧
                ¬ pyEndsWith (pyStripWS tagText) ")"
            · simp only [if_pos h1]
              exact itemLoop_none env rest st ld _ (idx + 1) st' ld' p'
            · simp only [if_neg h1]
              by_cases h2 : ¬ pyStartsWith (pyStripWS tagText) "(" ∧
                  pyEndsWith (pyStripWS tagText) ")"
              · simp only [if_pos h2]
                exact itemLoop_none env rest st _ "" (idx + 1) st' ld' p'
              · simp only [if_neg h2]
                by_cases h3 : pyStripWS tagText = "," ∨ pyStripWS tagText = "/"
                · simp only [if_pos h3]
                  cases hap : appendLinkage st none ld with
                  | error e =>
                      rw [exc_bind_error]
                      exact fun h => Except.noConfusion h
                  | ok r => exact absurd hap (appendLinkage_none_not_ok st ld r)
                · simp only [if_neg h3]
                  by_cases h4 : pending ≠ ""
                  · simp only [if_pos h4]
                    exact itemLoop_none env rest st ld _ (idx + 1) st' ld' p'
                  · simp only [if_neg h4]
                    exact itemLoop_none env rest st _ pending (idx + 1) st' ld' p'

theorem linkStep_none (env : Env) (n : WikiNode) (st : PState) (sense : String)
    (sidx : Nat) (st' : PState) (s' : String) (i' : Nat) :
    linkStep env none n st sense sidx = .ok (st', s', i') → st' = st := by
  unfold linkStep
  by_cases hp : n.kind = NodeKind.TEMPLATE ∧ n.name = "("
  · simp only [if_pos hp]
    intro h
    cases h
    rfl
  · simp only [if_neg hp]
    by_cases hs : n.kind = NodeKind.LIST_ITEM ∧ n.sarg = ";"
    · simp only [if_pos hs]
      cases senseIndexMatch (cleanNode env (.ofChildren n.children)) with
      | none => intro h; cases h; rfl
      | some tk => intro h; cases h; rfl
    · simp only [if_neg hs]
      cases hit : itemLoop env none (invertFindChild [NodeKind.LIST] n) st
          (initLd sense sidx) "" 0 with
      | error e =>
          rw [exc_bind_error]
          exact fun h => Except.noConfusion h
      | ok r =>
          rw [exc_bind_ok]
          obtain ⟨st1, ld1, p1⟩ := r
          have hst1 : st1 = st := itemLoop_none env _ st _ "" 0 st1 ld1 p1 hit
          by_cases hw : ld1.word.isSome
          · simp only [if_pos hw]
            cases hap : appendLinkage st1 none ld1 with
            | error e =>
                rw [exc_bind_error]
                exact fun h => Except.noConfusion h
            | ok r2 => exact absurd hap (appendLinkage_none_not_ok st1 ld1 r2)
          · simp only [if_neg hw]
            intro h
            cases h
            exact hst1

theorem linkSteps_none (env : Env) :
    ∀ (ns : List WikiNode) (st : PState) (sense : String) (sidx : Nat) (st' : PState),
    linkSteps env none ns st sense sidx = .ok st' → st' = st
  | [], st, sense, sidx, st' => by
      simp only [linkSteps]
      intro h
      cases h
      rfl
  | n :: rest, st, sense, sidx, st' => by
      simp only [linkSteps]
      cases hstep : linkStep env none n st sense sidx with
      | error e =>
          rw [exc_bind_error]
          exact fun h => Except.noConfusion h
      | ok r =>
          rw [exc_bind_ok]
          obtain ⟨st1, s1, i1⟩ := r
          intro h
          have h1 : st1 = st := linkStep_none env n st sense sidx st1 s1 i1 hstep
          rw [← h1]
          exact linkSteps_none env rest st1 s1 i1 st' h

end Wx

namespace WxOld

open Wx

/-- The foldl over `range(2, 8)` appends exactly the present parameters. -/
theorem equivFoldAppend (n : WikiNode) (tag : String) :
    ∀ (is : List Nat) (acc : List OldForm),
    List.foldl
      (fun acc i =>
        match pget n.params (.num i) with
        | some v => acc ++ [{ form := v, tags := [tag] }]
        | none => acc)
      acc is =
    acc ++ is.filterMap
      (fun i => (pget n.params (.num i)).map (fun v => { form := v, tags := [tag] }))
  | [], acc => by simp
  | i :: is, acc => by
      simp only [List.foldl_cons, List.filterMap_cons]
      cases hi : pget n.params (.num i) with
      | none => simp only [Option.map_none]; exact equivFoldAppend n tag is acc
      | some v =>
          simp only [Option.map_some]
          rw [equivFoldAppend n tag is _]
          simp

end WxOld

namespace Wx

/-! ## Claims -/

/-- C1: for every parse-tree input and template arguments (however malformed
or absent), the entry points `extract_linkage` and `extract_form_line` return
without raising, given a non-empty `page_data`, a section type the caller
dispatches on, and link-wellformed expander output; in particular
`process_lien_template` and `process_zh_lien_template` produce a `Linkage`
whose `word` is set to the empty string when positional parameter 1 and
`dif` are absent, instead of failing. -/
theorem claim_C1 :
    (∀ (env : Env) (st : PState) (nodes : List Child),
      EnvLinksWF env → st.entries ≠ [] →
      ∃ st', extractFormLine env st nodes = .ok st') ∧
    (∀ (env : Env) (st : PState) (lvl : WikiNode) (sec : String),
      st.entries ≠ [] →
      (sec = "dérivés autres langues" ∨ (env.linkageSubtitles sec).isSome) →
      ∃ st', extractLinkage env st lvl sec = .ok st') ∧
    (∀ (env : Env) (n : WikiNode) (ld : Linkage),
      pget n.params (.str "dif") = none → pget n.params (.num 1) = none →
      (processLienTemplate env n ld).word = some "" ∧
      (processZhLienTemplate env n ld).word = some "") := by
  refine ⟨?_, ?_, ?_⟩
  · intro env st nodes henv h
    obtain ⟨st', hok, -⟩ := extractFormLine_ok env henv st nodes h
    exact ⟨st', hok⟩
  · intro env st lvl sec h hsec
    unfold extractLinkage
    by_cases hd : sec = "dérivés autres langues"
    · rw [if_pos hd]
      exact ⟨_, processDerivesAutresListEq env lvl st h⟩
    · rw [if_neg hd]
      rcases hsec with hsec | hsec
      · exact absurd hsec hd
      · obtain ⟨f, hf⟩ := Option.isSome_iff_exists.mp hsec
        rw [hf]
        exact ⟨_, processLinkageListEq env f lvl st h⟩
  · intro env n ld hdif h1
    constructor
    · unfold processLienTemplate
      rw [hdif, h1]
      cases pget n.params (.str "tr") <;> cases pget n.params (.str "sens") <;> rfl
    · unfold processZhLienTemplate
      rw [h1]
      dsimp only []
      split <;> rfl

/-- Witness for C1 at concrete inputs: an empty form line, the synonyms
section of a one-item list, and a `zh-lien` template with no parameters. -/
theorem claim_C1_witness :
    (∃ st', extractFormLine envW st1e [] = .ok st') ∧
    (∃ st', extractLinkage envT st1e lvlC4 "synonymes" = .ok st') ∧
    ((processLienTemplate envW zlNode {}).word = some "" ∧
      (processZhLienTemplate envW zlNode {}).word = some "") :=
  ⟨claim_C1.1 envW st1e [] (fun _ l hl => absurd hl (List.not_mem_nil l)) (by decide),
   claim_C1.2.1 envT st1e lvlC4 "synonymes" (by decide) (Or.inr (by decide)),
   claim_C1.2.2 envW zlNode {} rfl rfl⟩

/-- C2 counterexample: `page_data` has two entries of equal language and
part of speech; the previous entry's forms list (store cell 0) ends in a
form from the conjugation page `Conjugaison:xval`.  A single
`extract_form_line` call whose nodes are a conj template (which makes
`page_data[-1].forms` the same list object as `page_data[-2].forms`)
followed by an équiv-pour template (which appends a form) mutates the forms
of the first entry — an entry at an index other than the last — refuting the
claim that such entries' forms are equal before and after the call. -/
theorem claim_C2_counterexample :
    stC2.entries.length = 2 ∧
    stC2.store ((stC2.entries.getD 0 {}).formsRef) = [f0] ∧
    c2After = [f0, { form := "yform", tags := [], source := equivPourSource }] ∧
    c2After ≠ stC2.store ((stC2.entries.getD 0 {}).formsRef) := by
  refine ⟨rfl, by decide, by decide, by decide⟩

/-- C2 as amended: a call to `extract_form_line` leaves every entry record
other than the last unchanged (hence their sounds, tags and linkage lists),
and changes only the forms cells reachable as `page_data[-1].forms` or
`page_data[-2].forms` (the latter because `process_conj_template` may alias
them); a call to `extract_linkage` that returns leaves every entry other
than the last unchanged and the whole forms store untouched. -/
theorem claim_C2 :
    (∀ (env : Env) (st : PState) (nodes : List Child),
      EnvLinksWF env → st.entries ≠ [] →
      ∃ st', extractFormLine env st nodes = .ok st' ∧
        st'.entries.dropLast = st.entries.dropLast ∧
        inRefs st (lastD st').formsRef ∧
        (∀ r, ¬ inRefs st r → st'.store r = st.store r)) ∧
    (∀ (env : Env) (st : PState) (lvl : WikiNode) (sec : String) (st' : PState),
      st.entries ≠ [] →
      extractLinkage env st lvl sec = .ok st' →
      st'.entries.dropLast = st.entries.dropLast ∧ st'.store = st.store) := by
  constructor
  · intro env st nodes henv h
    obtain ⟨st', hok, hfr⟩ := extractFormLine_ok env henv st nodes h
    exact ⟨st', hok, hfr.2.1, hfr.2.2.1, hfr.2.2.2⟩
  · intro env st lvl sec st' h hok
    unfold extractLinkage at hok
    by_cases hd : sec = "dérivés autres langues"
    · rw [if_pos hd, processDerivesAutresListEq env lvl st h] at hok
      cases hok
      exact ⟨appendAll_dropLast st .derived _, appendAll_store st .derived _⟩
    · rw [if_neg hd] at hok
      cases hf : env.linkageSubtitles sec with
      | some f =>
          rw [hf, processLinkageListEq env f lvl st h] at hok
          cases hok
          exact ⟨appendAll_dropLast st f _, appendAll_store st f _⟩
      | none =>
          rw [hf] at hok
          have := linkSteps_none env _ st "" 0 st' hok
          rw [this]
          exact ⟨rfl, rfl⟩

theorem envC2_linksWF : EnvLinksWF envC2 := by
  intro n l hl
  by_cases h1 : n.name = "conj"
  · have hexp : envC2.expand n = linkRootC := by simp [envC2, h1]
    rw [hexp] at hl
    rw [show findChild [NodeKind.LINK] linkRootC = [linkNodeC] from rfl] at hl
    rw [List.mem_singleton.mp hl]
    exact Or.inr ⟨"Conjugaison:xval", [], [], rfl⟩
  · by_cases h2 : n.name = "équiv-pour"
    · have hexp : envC2.expand n = equivRootC := by simp [envC2, h1, h2]
      rw [hexp] at hl
      rw [show findChild [NodeKind.LINK] equivRootC = [] from rfl] at hl
      exact absurd hl (List.not_mem_nil l)
    · have hexp : envC2.expand n = emptyRoot := by simp [envC2, h1, h2]
      rw [hexp] at hl
      rw [show findChild [NodeKind.LINK] emptyRoot = [] from rfl] at hl
      exact absurd hl (List.not_mem_nil l)

/-- Witness for the amended C2 on concrete inputs. -/
theorem claim_C2_witness :
    (∃ st', extractFormLine envC2 stC2 [.node conjNode, .node equivNode] = .ok st' ∧
      st'.entries.dropLast = stC2.entries.dropLast ∧
      inRefs stC2 (lastD st').formsRef ∧
      (∀ r, ¬ inRefs stC2 r → st'.store r = stC2.store r)) ∧
    ((match extractLinkage envT st1e lvlC4 "synonymes" with
      | .ok r => r
      | .error _ => st1e).entries.dropLast = st1e.entries.dropLast ∧
     (match extractLinkage envT st1e lvlC4 "synonymes" with
      | .ok r => r
      | .error _ => st1e).store = st1e.store) :=
  ⟨claim_C2.1 envC2 stC2 [.node conjNode, .node equivNode] envC2_linksWF (by decide),
   claim_C2.2 envT st1e lvlC4 "synonymes"
     (match extractLinkage envT st1e lvlC4 "synonymes" with
      | .ok r => r
      | .error _ => st1e)
     (by decide)
     (by rfl)⟩

/-- C3 counterexample: two entries agree on language code and part of
speech, but the previous entry's forms list is empty, so the claim's
condition for reuse holds while the code does not reuse: it calls
`extract_conjugation` (observable through the marker form it appends) and
leaves `page_data[-1].forms` a distinct list object from
`page_data[-2].forms`. -/
theorem claim_C3_counterexample :
    (stC3.entries.getD 0 {}).lang_code = (stC3.entries.getD 1 {}).lang_code ∧
    (stC3.entries.getD 0 {}).pos = (stC3.entries.getD 1 {}).pos ∧
    stC3.entries.length = 2 ∧
    formsOf c3Res (lastD c3Res) =
      [{ form := "MARK", tags := [], source := "Conjugaison:xval" }] ∧
    formsOf c3Res (secondD c3Res) = [] ∧
    formsOf c3Res (lastD c3Res) ≠ formsOf c3Res (secondD c3Res) ∧
    (lastD c3Res).formsRef ≠ (secondD c3Res).formsRef := by
  refine ⟨rfl, rfl, rfl, by decide, by decide, by decide, by decide⟩

/-- C3 as amended: for a conjugation-page link of a conj template, the
current entry's forms list object is reused from the previous entry exactly
when the entries agree on language code and part of speech AND the previous
entry's forms list is non-empty AND its last form's source is the
conjugation page title (`conjReuse`); otherwise `extract_conjugation` is run
on the current entry's own forms list. -/
theorem claim_C3 :
    ∀ (env : Env) (st : PState) (l : WikiNode) (s : String),
    st.entries ≠ [] →
    conjLinkTitle l.largs = .ok (some s) →
    pyStartsWith s "Conjugaison:" = true →
    pySplit1Last s ∉ groupeNames →
    ∃ st', conjLinks env [l] st = .ok st' ∧
      ((conjReuse st (lastD st) s = true →
        st'.entries.dropLast = st.entries.dropLast ∧
        (lastD st').formsRef = (secondD st).formsRef ∧
        formsOf st' (lastD st') = formsOf st (secondD st) ∧
        st'.store = st.store) ∧
       (conjReuse st (lastD st) s = false →
        st'.entries = st.entries ∧
        (lastD st').formsRef = (lastD st).formsRef ∧
        formsOf st' (lastD st') = env.extractConjugation s (formsOf st (lastD st)))) := by
  intro env st l s h hct hsw hgr
  simp only [conjLinks]
  rw [hct, exc_bind_ok]
  dsimp only []
  rw [if_neg (by rw [hsw]; exact fun hc => hc rfl)]
  rw [if_neg hgr]
  rw [getLastE_eq st h, exc_bind_ok]
  cases hr : conjReuse st (lastD st) s with
  | true =>
      simp only [hr, if_true]
      refine ⟨_, rfl, fun _ => ?_, fun hfalse => Bool.noConfusion hfalse⟩
      refine ⟨dropLast_setLast st _, ?_, ?_, rfl⟩
      · rw [lastD_setLast]
      · rw [lastD_setLast]
        rfl
  | false =>
      simp only [hr, Bool.false_eq_true, if_false]
      refine ⟨_, rfl, fun htrue => htrue.elim, fun _ => ?_⟩
      refine ⟨rfl, rfl, ?_⟩
      have hsame : lastD (st.setForms (lastD st).formsRef
          (env.extractConjugation s (formsOf st (lastD st)))) = lastD st := rfl
      show (st.setForms (lastD st).formsRef _).store (lastD (st.setForms (lastD st).formsRef _)).formsRef = _
      rw [hsame]
      show (if (lastD st).formsRef = (lastD st).formsRef then _ else _) = _
      rw [if_pos rfl]

/-- Witness for the amended C3, exercising the reuse branch: the previous
entry's forms end in a form from the same conjugation page, so
`page_data[-1].forms` becomes the previous entry's forms list object. -/
theorem claim_C3_witness :
    conjReuse stC2 (lastD stC2) "Conjugaison:xval" = true ∧
    (∃ st', conjLinks envC2 [linkNodeC] stC2 = .ok st' ∧
      ((conjReuse stC2 (lastD stC2) "Conjugaison:xval" = true →
        st'.entries.dropLast = stC2.entries.dropLast ∧
        (lastD st').formsRef = (secondD stC2).formsRef ∧
        formsOf st' (lastD st') = formsOf stC2 (secondD stC2) ∧
        st'.store = stC2.store) ∧
       (conjReuse stC2 (lastD stC2) "Conjugaison:xval" = false →
        st'.entries = stC2.entries ∧
        (lastD st').formsRef = (lastD stC2).formsRef ∧
        formsOf st' (lastD st') =
          envC2.extractConjugation "Conjugaison:xval" (formsOf stC2 (lastD stC2))))) :=
  ⟨by decide,
   claim_C3 envC2 stC2 linkNodeC "Conjugaison:xval" (by decide) rfl (by decide) (by decide)⟩

/-- C4 counterexample: in the list item `w (a (b c)`, the fragment `(a`
opens the buffer, but the following fragment `(b` is NOT concatenated onto
it — it replaces the buffer — so the emitted tag is `(bc)` and the
concatenation `(a(bc)` the claim predicts appears nowhere. -/
theorem claim_C4_counterexample :
    c4Syn = [{ word := some "w", tags := ["(bc)"] }] ∧
    ∀ l ∈ c4Syn, "(a(bc)" ∉ l.tags := by
  refine ⟨by decide, by decide⟩

theorem openFrag_word_ne {x : String} (h : pyStartsWith (pyStripWS x) "(" = true) :
    x ≠ "" := by
  intro hx
  rw [hx] at h
  exact absurd h (by decide)

/-- C4 as amended: after the word, a fragment whose stripped text starts
with `(` but does not end with `)` is buffered; every following fragment
that neither starts a new buffer (a fragment starting with `(` and not
ending with `)` replaces the buffer) nor is a `,`/`/` separator (handled as
a separator without touching the buffer) is concatenated onto the buffer;
when a fragment whose stripped text ends with `)` but does not start with
`(` arrives, the whole concatenation is processed as a single tag text and
the buffer is cleared.  Formally: for an opener, plain middle fragments and
a closer, the item loop emits no record, applies the tag splitter once to
the full concatenation, and ends with an empty buffer and unchanged state. -/
theorem claim_C4 :
    ∀ (env : Env) (f : LinkageField) (st : PState) (ld : Linkage) (idx : Nat)
      (opn : Child) (mids : List Child) (cls : Child),
    st.entries ≠ [] → idx ≠ 0 → ld.word.isSome = true →
    openFragOK env opn → (∀ m ∈ mids, midFragOK env m) → closeFragOK env cls →
    itemLoop env (some f) (opn :: mids ++ [cls]) st ld "" idx =
      .ok (st, applyTags env
        (fragText env opn ++ String.join (mids.map (fragText env)) ++ fragText env cls) ld,
        "") := by
  intro env f st ld idx opn mids cls h hi hw hopen hmids hcls
  rw [itemLoopEq env f (opn :: mids ++ [cls]) st ld "" idx h]
  have h0 : ¬ (idx = 0 ∨ ld.word.isNone) := by
    rintro (hz | hn)
    · exact hi hz
    · rw [Option.isNone_iff_eq_none] at hn
      rw [hn] at hw
      exact absurd hw (by simp)
  have step1 : collectItemGo env (opn :: (mids ++ [cls])) ld "" idx =
      collectItemGo env (mids ++ [cls]) ld (fragText env opn) (idx + 1) := by
    simp only [collectItemGo]
    rw [if_neg h0, if_pos ⟨hopen.1, by rw [hopen.2]; exact Bool.false_ne_true⟩]
  have hbuf := collectItemGo_buffering env mids cls [] ld (fragText env opn) (idx + 1)
    (openFrag_word_ne hopen.1) (Nat.succ_ne_zero idx) hw hmids hcls
  rw [show (opn :: mids ++ [cls] : List Child) = opn :: (mids ++ [cls]) from rfl,
    step1, hbuf]
  simp only [collectItemGo]
  rw [appendAll_nil st f h]

/-- Witness for the amended C4: buffer `(a`, concatenate `xx`, close with
`b)`; the single processed tag text is `(axxb)`. -/
theorem claim_C4_witness :
    (openFragOK envT (.str "(a") ∧ (∀ m ∈ [Child.str "xx"], midFragOK envT m) ∧
      closeFragOK envT (.str "b)")) ∧
    itemLoop envT (some .synonyms) [.str "(a", .str "xx", .str "b)"] st1e
        { word := some "w" } "" 1 =
      .ok (st1e, applyTags envT
        (fragText envT (.str "(a") ++ String.join ([Child.str "xx"].map (fragText envT)) ++
          fragText envT (.str "b)")) { word := some "w" }, "") :=
  have hmid : ∀ m ∈ [Child.str "xx"], midFragOK envT m := by
    intro m hm
    rw [List.mem_singleton.mp hm]
    exact ⟨rfl, rfl, by decide, by decide⟩
  ⟨⟨⟨rfl, rfl⟩, hmid, ⟨rfl, rfl⟩⟩,
   claim_C4 envT .synonyms st1e { word := some "w" } 1 (.str "(a") [.str "xx"] (.str "b)")
     (by decide) (by decide) (by decide) ⟨rfl, rfl⟩ hmid ⟨rfl, rfl⟩⟩

theorem initLd_fields (sense : String) (sidx : Nat) :
    (initLd sense sidx).sense = sense ∧ (initLd sense sidx).sense_index = sidx := by
  unfold initLd
  constructor <;> by_cases hs : sense ≠ "" <;> by_cases hi : sidx ≠ 0 <;>
    simp [hs, hi] <;> simp [not_not] at hs hi <;> simp [hs, hi]

/-- C5: a `;` list item is classified as sense text: it appends no record
and leaves the state unchanged, sets the sense text to the cleaned item
text, and — when the text ends in a parenthesized number `(N)` or
`(sens N)` — removes that number from the text and stores it as the integer
sense index (otherwise the previous index is kept); a `(` table-start
template likewise appends nothing, sets the sense text from parameter 1 and
the sense index from parameter 2 when that parameter is a digit string; the
sense state is applied to the first record of each subsequent linkage
item. -/
theorem claim_C5 :
    (∀ (env : Env) (lt : Option LinkageField) (n : WikiNode) (st : PState)
        (sense : String) (sidx : Nat),
      n.kind = NodeKind.LIST_ITEM → n.sarg = ";" →
      linkStep env lt n st sense sidx = .ok (st,
        match senseIndexMatch (cleanNode env (.ofChildren n.children)) with
        | some tk => tk
        | none => (cleanNode env (.ofChildren n.children), sidx))) ∧
    (∀ (t ds : String), pyIsDigit ds = true →
      senseIndexMatch (t ++ "(" ++ ds ++ ")") = some (pyRStripWS t, pyToNat ds)) ∧
    (∀ (t ds : String), pyIsDigit ds = true →
      senseIndexMatch (t ++ "(sens " ++ ds ++ ")") = some (pyRStripWS t, pyToNat ds)) ∧
    (∀ (env : Env) (lt : Option LinkageField) (n : WikiNode) (st : PState)
        (sense : String) (sidx : Nat) (ds : String),
      n.kind = NodeKind.TEMPLATE → n.name = "(" →
      pget n.params (.num 2) = some (.str ds) → pyIsDigit ds = true →
      linkStep env lt n st sense sidx =
        .ok (st, cleanNode env (optArgD (pget n.params (.num 1))), pyToNat ds)) ∧
    (∀ (env : Env) (n : WikiNode) (sense : String) (sidx : Nat) (l : Linkage),
      (collectStep env n sense sidx).1.head? = some l →
      l.sense = sense ∧ l.sense_index = sidx) := by
  refine ⟨?_, senseIndexMatch_paren, senseIndexMatch_sens, ?_, ?_⟩
  · intro env lt n st sense sidx hk hs
    unfold linkStep
    rw [if_neg (fun hc => by rw [hk] at hc; exact NodeKind.noConfusion hc.1)]
    rw [if_pos ⟨hk, hs⟩]
    dsimp only []
    cases hm : senseIndexMatch (cleanNode env (.ofChildren n.children)) with
    | none => rfl
    | some tk =>
        obtain ⟨t, k⟩ := tk
        rfl
  · intro env lt n st sense sidx ds hk hn hp2 hds
    unfold linkStep
    rw [if_pos ⟨hk, hn⟩, hp2]
    dsimp only [Option.getD]
    rw [if_pos hds]
  · intro env n sense sidx l
    unfold collectStep
    by_cases hp : n.kind = NodeKind.TEMPLATE ∧ n.name = "("
    · rw [if_pos hp]
      intro hhead
      exact absurd hhead (by simp)
    · rw [if_neg hp]
      by_cases hs : n.kind = NodeKind.LIST_ITEM ∧ n.sarg = ";"
      · rw [if_pos hs]
        dsimp only []
        cases hm : senseIndexMatch (cleanNode env (.ofChildren n.children)) with
        | none =>
            intro hhead
            exact absurd hhead (by simp)
        | some tk =>
            obtain ⟨t, k⟩ := tk
            intro hhead
            exact absurd hhead (by simp)
      · rw [if_neg hs]
        intro hhead
        have := collectItemGo_firstSense env (invertFindChild [NodeKind.LIST] n)
          (initLd sense sidx) "" 0 l hhead
        obtain ⟨hf1, hf2⟩ := initLd_fields sense sidx
        exact ⟨this.1.trans hf1, this.2.trans hf2⟩

/-- Witness for C5 on concrete inputs: the item `; Argent (1)`, the strings
`Argent (7)` and `x(sens 12)`, a `(` template with parameters, and a
subsequent one-word item that picks up the sense state. -/
theorem claim_C5_witness :
    (linkStep envT (some .synonyms) itemC5 st1e "" 0 = .ok (st1e,
      match senseIndexMatch (cleanNode envT (.ofChildren itemC5.children)) with
      | some tk => tk
      | none => (cleanNode envT (.ofChildren itemC5.children), 0))) ∧
    (pyIsDigit "7" = true ∧
      senseIndexMatch ("Argent " ++ "(" ++ "7" ++ ")") = some (pyRStripWS "Argent ", pyToNat "7")) ∧
    (senseIndexMatch ("x" ++ "(sens " ++ "12" ++ ")") = some (pyRStripWS "x", pyToNat "12")) ∧
    (linkStep envT (some .synonyms) parNode st1e "old" 9 =
      .ok (st1e, cleanNode envT (optArgD (pget parNode.params (.num 1))), pyToNat "3")) ∧
    ((collectStep envT itemW "s1" 4).1.head? =
        some { word := some "mot", sense := "s1", sense_index := 4 } ∧
      ({ word := some "mot", sense := "s1", sense_index := 4 : Linkage }).sense = "s1" ∧
      ({ word := some "mot", sense := "s1", sense_index := 4 : Linkage }).sense_index = 4) :=
  ⟨claim_C5.1 envT (some .synonyms) itemC5 st1e "" 0 rfl rfl,
   ⟨by decide, claim_C5.2.1 "Argent " "7" (by decide)⟩,
   claim_C5.2.2.1 "x" "12" (by decide),
   claim_C5.2.2.2.1 envT (some .synonyms) parNode st1e "old" 9 "3" rfl rfl rfl (by decide),
   ⟨by decide,
    (claim_C5.2.2.2.2 envT itemW "s1" 4 _ (by decide)).1,
    (claim_C5.2.2.2.2 envT itemW "s1" 4 _ (by decide)).2⟩⟩

/-- C6: one `ja-mot` template appends at most one form — the second `span`
(the Hepburn romanization) tagged `romanization` — and appends it only when
its text differs from every existing form text of the entry; when the text
already exists, the forms list is unchanged. -/
theorem claim_C6 :
    ∀ (env : Env) (st : PState) (tn : WikiNode), st.entries ≠ [] →
    ∃ st', processJaMotTemplate env tn st = .ok st' ∧
      st'.entries = st.entries ∧
      formsOf st' (lastD st') =
        formsOf st (lastD st) ++
          (match (findHtmlSpans "span" (env.expand tn)).get? 1 with
           | none => []
           | some sp =>
              if cleanNode env (.ofNode sp) ∈ (formsOf st (lastD st)).map (·.form) then []
              else [{ form := cleanNode env (.ofNode sp), tags := ["romanization"] }]) ∧
      (formsOf st' (lastD st')).length ≤ (formsOf st (lastD st)).length + 1 := by
  intro env st tn h
  unfold processJaMotTemplate
  rw [getLastE_eq st h, exc_bind_ok]
  cases hsp : (findHtmlSpans "span" (env.expand tn)).get? 1 with
  | none => exact ⟨st, rfl, rfl, by simp, by simp⟩
  | some sp =>
      dsimp only []
      by_cases hmem : cleanNode env (.ofNode sp) ∈ (formsOf st (lastD st)).map (·.form)
      · rw [if_pos hmem]
        exact ⟨st, rfl, rfl, by simp [hmem], by simp⟩
      · rw [if_neg hmem]
        refine ⟨_, rfl, rfl, ?_, ?_⟩
        · rw [if_neg hmem]
          show (appendFormToLast st (lastD st) _).store
            (lastD (appendFormToLast st (lastD st) _)).formsRef = _
          have hsame : lastD (appendFormToLast st (lastD st)
              { form := cleanNode env (.ofNode sp), tags := ["romanization"] }) = lastD st := rfl
          rw [hsame]
          show (if (lastD st).formsRef = (lastD st).formsRef then _ else _) = _
          rw [if_pos rfl]
          rfl
        · show List.length ((appendFormToLast st (lastD st) _).store
            (lastD (appendFormToLast st (lastD st) _)).formsRef) ≤ _
          have hsame : lastD (appendFormToLast st (lastD st)
              { form := cleanNode env (.ofNode sp), tags := ["romanization"] }) = lastD st := rfl
          rw [hsame]
          show List.length (if (lastD st).formsRef = (lastD st).formsRef then _ else _) ≤ _
          rw [if_pos rfl]
          simp [formsOf]

/-- Witness for C6: two spans cleaning to `hep` with no existing forms; the
second span is appended as a romanization form. -/
theorem claim_C6_witness :
    st1e.entries ≠ [] ∧
    ∃ st', processJaMotTemplate envC6 jaNode st1e = .ok st' ∧
      st'.entries = st1e.entries ∧
      formsOf st' (lastD st') =
        formsOf st1e (lastD st1e) ++
          (match (findHtmlSpans "span" (envC6.expand jaNode)).get? 1 with
           | none => []
           | some sp =>
              if cleanNode envC6 (.ofNode sp) ∈ (formsOf st1e (lastD st1e)).map (·.form) then []
              else [{ form := cleanNode envC6 (.ofNode sp), tags := ["romanization"] }]) ∧
      (formsOf st' (lastD st')).length ≤ (formsOf st1e (lastD st1e)).length + 1 :=
  ⟨by decide, claim_C6 envC6 st1e jaNode (by decide)⟩

/-- C7: `extract_linkage` only extends the target linkage list of the last
entry: the previous records stay, unmodified and in order, as a prefix, and
the appended records are exactly the collected records of the found list
items in document (top-to-bottom) order; entries other than the last are
untouched. -/
theorem claim_C7 :
    (∀ (env : Env) (st : PState) (lvl : WikiNode) (sec : String) (f : LinkageField),
      st.entries ≠ [] → sec ≠ "dérivés autres langues" →
      env.linkageSubtitles sec = some f →
      ∃ st', extractLinkage env st lvl sec = .ok st' ∧
        st'.entries.dropLast = st.entries.dropLast ∧
        (lastD st').lfield f = (lastD st).lfield f ++ linkageCollect env lvl) ∧
    (∀ (env : Env) (st : PState) (lvl : WikiNode),
      st.entries ≠ [] →
      ∃ st', extractLinkage env st lvl "dérivés autres langues" = .ok st' ∧
        st'.entries.dropLast = st.entries.dropLast ∧
        (lastD st').derived = (lastD st).derived ++ derivesCollect env lvl) := by
  constructor
  · intro env st lvl sec f h hd hf
    refine ⟨appendAll st f (linkageCollect env lvl), ?_, appendAll_dropLast st f _, ?_⟩
    · unfold extractLinkage
      rw [if_neg hd, hf]
      exact processLinkageListEq env f lvl st h
    · rw [appendAll_lastD st f _ h, lfield_setLfield]
  · intro env st lvl h
    refine ⟨appendAll st .derived (derivesCollect env lvl), ?_,
      appendAll_dropLast st .derived _, ?_⟩
    · unfold extractLinkage
      rw [if_pos rfl]
      exact processDerivesAutresListEq env lvl st h
    · have := appendAll_lastD st .derived (derivesCollect env lvl) h
      rw [this]
      show ((lastD st).setLfield .derived _).lfield .derived = _
      rw [lfield_setLfield]
      rfl

/-- Witness for C7 on the synonyms section of a concrete one-item list. -/
theorem claim_C7_witness :
    envT.linkageSubtitles "synonymes" = some .synonyms ∧
    ∃ st', extractLinkage envT st1e lvlC4 "synonymes" = .ok st' ∧
      st'.entries.dropLast = st1e.entries.dropLast ∧
      (lastD st').lfield .synonyms = (lastD st1e).lfield .synonyms ++ linkageCollect envT lvlC4 :=
  ⟨by decide,
   claim_C7.1 envT st1e lvlC4 "synonymes" .synonyms (by decide) (by decide) (by decide)⟩

/-- C8 counterexample: the template immediately following a pronunciation
template is `ja-mot`, which renders as the fully parenthesized text
`(Paris)` while the entry already has one sound — yet the text is not
appended to the last sound's tags (the template is handled by the ja-mot
dispatch instead), refuting the claim as stated. -/
theorem claim_C8_counterexample :
    pyStartsWith (cleanNode envC8 (.ofNode jaNode)) "(" = true ∧
    pyEndsWith (cleanNode envC8 (.ofNode jaNode)) ")" = true ∧
    c8Sounds = [{ ipa := "ipa1", zh_pron := "", tags := [] }] ∧
    ∀ s ∈ c8Sounds, "Paris" ∉ s.tags := by
  refine ⟨by decide, by decide, by decide, by decide⟩

/-- C8 as amended: a template of the form line whose name is in
`PRON_TEMPLATES` appends a Sound with the extracted IPA text exactly when
that text is non-empty; and when the immediately following template is not
itself one of the dispatched names (pronunciation, équiv-pour, zh-mot*,
ja-mot, conj/conjugaison/ja-adj-*/ja-verbe*), renders as a fully
parenthesized text, and the entry has at least one sound, the text with its
parentheses stripped is appended to the tags of the last sound and the
entry's own tags are unchanged. -/
theorem claim_C8 :
    (∀ (env : Env) (st : PState) (pre : String) (n : WikiNode),
      st.entries ≠ [] → n.kind = NodeKind.TEMPLATE → n.name ∈ env.pronTemplates →
      ∃ st', formLineStep env st pre (.node n) = .ok (st', n.name) ∧
        st'.entries.dropLast = st.entries.dropLast ∧
        (lastD st').sounds = (lastD st).sounds ++
          (if env.processPronTemplate n ≠ "" then [{ ipa := env.processPronTemplate n }] else [])) ∧
    (∀ (env : Env) (st : PState) (pre : String) (n : WikiNode),
      st.entries ≠ [] → n.kind = NodeKind.TEMPLATE →
      n.name ∉ env.pronTemplates → n.name ≠ "équiv-pour" →
      pyStartsWith n.name "zh-mot" = false → n.name ≠ "ja-mot" →
      isConjName n.name = false →
      pyStartsWith (cleanNode env (.ofNode n)) "(" = true →
      pyEndsWith (cleanNode env (.ofNode n)) ")" = true →
      pre ∈ env.pronTemplates → (lastD st).sounds ≠ [] →
      ∃ st', formLineStep env st pre (.node n) = .ok (st', n.name) ∧
        (lastD st').sounds = (lastD st).sounds.dropLast ++
          [{ ((lastD st).sounds.getLastD {}) with
              tags := ((lastD st).sounds.getLastD {}).tags ++
                [pyStripChars "()" (cleanNode env (.ofNode n))] }] ∧
        (lastD st').tags = (lastD st).tags) := by
  constructor
  · intro env st pre n h hk hp
    unfold formLineStep
    dsimp only []
    rw [if_pos hk]
    unfold formLineTemplate
    rw [if_pos hp]
    by_cases hipa : env.processPronTemplate n ≠ ""
    · rw [if_pos hipa, getLastE_eq st h, exc_bind_ok, exc_bind_ok]
      refine ⟨_, rfl, dropLast_setLast st _, ?_⟩
      rw [lastD_setLast, if_pos hipa]
    · rw [if_neg hipa, exc_bind_ok]
      refine ⟨st, rfl, rfl, ?_⟩
      rw [if_neg hipa]
      simp
  · intro env st pre n h hk hp he hz hj hcj hps hpe hpre hsnd
    unfold formLineStep
    dsimp only []
    rw [if_pos hk]
    unfold formLineTemplate
    rw [if_neg hp, if_neg he, hz]
    rw [if_neg (by exact Bool.false_ne_true), if_neg hj, hcj,
      if_neg (by exact Bool.false_ne_true)]
    rw [getLastE_eq st h, exc_bind_ok]
    rw [if_pos ⟨hps, hpe, hpre, hsnd⟩, exc_bind_ok]
    refine ⟨_, rfl, ?_, ?_⟩
    · rw [lastD_setLast]
      rfl
    · rw [lastD_setLast]

/-- Witness for the amended C8: a pron template with a non-empty IPA, then a
generic `locx` template rendering `(Paris)` with a sound present. -/
theorem claim_C8_witness :
    (∃ st', formLineStep envC8 st1e "" (.node pronNode) = .ok (st', pronNode.name) ∧
      st'.entries.dropLast = st1e.entries.dropLast ∧
      (lastD st').sounds = (lastD st1e).sounds ++
        (if envC8.processPronTemplate pronNode ≠ ""
          then [{ ipa := envC8.processPronTemplate pronNode }] else [])) ∧
    (∃ st', formLineStep envC8 stC8b "pron" (.node locNode) = .ok (st', locNode.name) ∧
      (lastD st').sounds = (lastD stC8b).sounds.dropLast ++
        [{ ((lastD stC8b).sounds.getLastD {}) with
            tags := ((lastD stC8b).sounds.getLastD {}).tags ++
              [pyStripChars "()" (cleanNode envC8 (.ofNode locNode))] }] ∧
      (lastD st').tags = (lastD stC8b).tags) :=
  ⟨claim_C8.1 envC8 st1e "" pronNode (by decide) rfl (by decide),
   claim_C8.2 envC8 stC8b "pron" locNode (by decide) rfl (by decide) (by decide)
     (by decide) (by decide) (by decide) (by decide) (by decide) (by decide) (by decide)⟩

/-- C9: every linkage record that `process_linkage_list` appends has its
`word` field set: the target list is extended by exactly the collected
records, and every collected record's `word` is assigned. -/
theorem claim_C9 :
    ∀ (env : Env) (f : LinkageField) (lvl : WikiNode) (st : PState),
    st.entries ≠ [] →
    ∃ st', processLinkageList env (some f) lvl st = .ok st' ∧
      (lastD st').lfield f = (lastD st).lfield f ++ linkageCollect env lvl ∧
      ∀ l ∈ linkageCollect env lvl, l.word.isSome := by
  intro env f lvl st h
  refine ⟨appendAll st f (linkageCollect env lvl), processLinkageListEq env f lvl st h, ?_, ?_⟩
  · rw [appendAll_lastD st f _ h, lfield_setLfield]
  · exact collectSteps_words env _ "" 0

/-- Witness for C9 on a concrete one-item list. -/
theorem claim_C9_witness :
    st1e.entries ≠ [] ∧
    ∃ st', processLinkageList envT (some .synonyms) lvlC4 st1e = .ok st' ∧
      (lastD st').lfield .synonyms = (lastD st1e).lfield .synonyms ++ linkageCollect envT lvlC4 ∧
      ∀ l ∈ linkageCollect envT lvlC4, l.word.isSome :=
  ⟨by decide, claim_C9 envT .synonyms lvlC4 st1e (by decide)⟩

end Wx

namespace WxOld

open Wx

theorem pget_append_ne (ps : List (PKey × Child)) (k : PKey) (v : Child) (k' : PKey)
    (h : k' ≠ k) : pget (ps ++ [(k, v)]) k' = pget ps k' := by
  unfold pget
  rw [List.find?_append]
  cases hf : ps.find? (fun p => decide (p.1 = k')) with
  | some p => rfl
  | none =>
      have hsingle : ([(k, v)].find? (fun p => decide (p.1 = k'))) = none := by
        simp only [List.find?_cons]
        rw [show (decide (k = k') : Bool) = false from
          decide_eq_false (fun he : k = k' => h he.symm)]
        rfl
      rw [hsingle]
      rfl

theorem filterMapCountLength {α β γ : Type _} (g : α → Option β) (h : α → β → γ) :
    ∀ (l : List α),
    (l.filterMap (fun a => (g a).map (h a))).length =
      (l.filter (fun a => (g a).isSome)).length
  | [] => rfl
  | x :: xs => by
      simp only [List.filterMap_cons, List.filter_cons]
      cases hx : g x with
      | none => simpa using filterMapCountLength g h xs
      | some v => simpa using filterMapCountLength g h xs

/-- C10: the old `process_equiv_pour_template` reads only positional
parameters 2 through 7: it appends exactly the present parameters in that
range (one form dict each, tagged `pour <parameter 1>`), hence at most six
forms; a missing parameter in that range contributes nothing, and adding a
binding for any key outside positions 1-7 leaves the result unchanged. -/
theorem claim_C10 :
    ∀ (n : WikiNode) (forms : List OldForm),
    processEquivPourTemplateOld n forms = forms ++ equivAppended n ∧
    (equivAppended n).length ≤ 6 ∧
    (∀ fd ∈ equivAppended n, fd.tags = ["pour " ++ pyFStr (pget n.params (.num 1))]) ∧
    (equivAppended n).length =
      ((List.range' 2 6).filter (fun i => (pget n.params (.num i)).isSome)).length ∧
    (∀ (k : PKey) (v : Child), k ∉ (List.range' 1 7).map PKey.num →
      processEquivPourTemplateOld
        (WikiNode.mk n.kind n.name (n.params ++ [(k, v)]) n.sarg n.children n.largs) forms =
      processEquivPourTemplateOld n forms) := by
  intro n forms
  refine ⟨?_, ?_, ?_, ?_, ?_⟩
  · unfold processEquivPourTemplateOld equivAppended
    exact equivFoldAppend n _ (List.range' 2 6) forms
  · exact (List.length_filterMap_le _ (List.range' 2 6)).trans (by decide)
  · intro fd hfd
    unfold equivAppended at hfd
    rcases List.mem_filterMap.mp hfd with ⟨i, hi, hmap⟩
    rcases Option.map_eq_some'.mp hmap with ⟨v, hv, rfl⟩
    rfl
  · unfold equivAppended
    exact filterMapCountLength _ _ (List.range' 2 6)
  · intro k v hk
    obtain ⟨nk, nn, ps, nsarg, nch, nlargs⟩ := n
    have hne : ∀ i, i ∈ List.range' 1 7 → PKey.num i ≠ k := by
      intro i hi he
      exact hk (he ▸ List.mem_map_of_mem PKey.num hi)
    have hp : ∀ i, i ∈ List.range' 1 7 →
        pget (ps ++ [(k, v)]) (.num i) = pget ps (.num i) := by
      intro i hi
      exact pget_append_ne ps k v (.num i) (hne i hi)
    have hsub : ∀ i, i ∈ List.range' 2 6 → i ∈ List.range' 1 7 := by
      intro i hi
      have h1 := List.mem_range'_1.mp hi
      exact List.mem_range'_1.mpr ⟨by omega, by omega⟩
    unfold processEquivPourTemplateOld
    dsimp only [WikiNode.params]
    have h1mem : (1 : Nat) ∈ List.range' 1 7 := by decide
    rw [hp 1 h1mem]
    have hfold : ∀ (acc : List OldForm) (is : List Nat), (∀ i ∈ is, i ∈ List.range' 1 7) →
        List.foldl
          (fun acc i =>
            match pget (ps ++ [(k, v)]) (.num i) with
            | some w => acc ++ [{ form := w, tags := ["pour " ++ pyFStr (pget ps (.num 1))] }]
            | none => acc)
          acc is =
        List.foldl
          (fun acc i =>
            match pget ps (.num i) with
            | some w => acc ++ [{ form := w, tags := ["pour " ++ pyFStr (pget ps (.num 1))] }]
            | none => acc)
          acc is := by
      intro acc is
      induction is generalizing acc with
      | nil => intro _; rfl
      | cons i is ih =>
          intro hmem
          simp only [List.foldl_cons]
          rw [hp i (hmem i (List.mem_cons_self i is))]
          cases pget ps (.num i) with
          | none => exact ih _ (fun j hj => hmem j (List.mem_cons_of_mem i hj))
          | some w => exact ih _ (fun j hj => hmem j (List.mem_cons_of_mem i hj))
    exact hfold forms (List.range' 2 6) hsub

/-- Witness for C10: an équiv-pour template with parameter 1 `féminin` and
positional parameters 2 and 4 present. -/
theorem claim_C10_witness :
    processEquivPourTemplateOld eqNode [] = [] ++ equivAppended eqNode ∧
    (equivAppended eqNode).length ≤ 6 ∧
    (∀ fd ∈ equivAppended eqNode, fd.tags = ["pour " ++ pyFStr (pget eqNode.params (.num 1))]) ∧
    (equivAppended eqNode).length =
      ((List.range' 2 6).filter (fun i => (pget eqNode.params (.num i)).isSome)).length ∧
    (∀ (k : PKey) (v : Child), k ∉ (List.range' 1 7).map PKey.num →
      processEquivPourTemplateOld
        (WikiNode.mk eqNode.kind eqNode.name (eqNode.params ++ [(k, v)]) eqNode.sarg
          eqNode.children eqNode.largs) [] =
      processEquivPourTemplateOld eqNode []) :=
  claim_C10 eqNode []

end WxOld

